import Mathlib

/-!
# Verification of the `llm_motion_bridge` node

Shallow embedding of `src/llm_motion_bridge/scripts/llm_motion_bridge.py`.

Scalar velocities and timestamps are modelled as rationals (`ℚ`); ROS
`rospy.Time` values are modelled by their `to_sec` value, with the epoch
`rospy.Time(0.0)` modelled as `0`.  JSON values decoded by `json.loads`
are modelled by the inductive type `Json` below, and Python exceptions by
the `PyErr` error type threaded through `Except`.
-/

namespace LlmMotionBridge

/-- A `geometry_msgs/Twist` message: six scalar velocity components.
`Twist()` in the source constructs the all-zero message. -/
structure Twist where
  linX : ℚ
  linY : ℚ
  linZ : ℚ
  angX : ℚ
  angY : ℚ
  angZ : ℚ
deriving DecidableEq, Repr

/-- The zero command `Twist()`. -/
def Twist.zero : Twist := ⟨0, 0, 0, 0, 0, 0⟩

/-- The arbiter's shared state: `_current_cmd` and `_last_command_time`
(the latter as seconds, `rospy.Time(0.0)` being `0`). -/
structure ArbiterState where
  cmd : Twist
  lastUpdate : ℚ
deriving DecidableEq, Repr

/-- The state installed by `_apply_stop` (and the initial state of
`__init__`): `_current_cmd = Twist()`, `_last_command_time = rospy.Time(0.0)`. -/
def stopState : ArbiterState := ⟨Twist.zero, 0⟩

/-- Configuration constants read once at startup: the per-axis speed
limits, the lateral-motion enable flag and the command hold duration. -/
structure Config where
  maxLinear : ℚ
  maxSide : ℚ
  maxAngular : ℚ
  allowY : Bool
  hold : ℚ
deriving DecidableEq, Repr

/-- `_clamp(value, limit)`: `if limit <= 0.0: return 0.0;
return max(min(value, limit), -limit)`. -/
def clamp (value limit : ℚ) : ℚ :=
  if limit ≤ 0 then 0 else max (min value limit) (-limit)

/-- The body of `_timer_publish`: under the lock it computes
`age = (now - last_command_time).to_sec()` and publishes `Twist()` when
`age > command_hold_duration`, otherwise the held `_current_cmd`. -/
def publishDecision (hold : ℚ) (st : ArbiterState) (now : ℚ) : Twist :=
  if now - st.lastUpdate > hold then Twist.zero else st.cmd

/-- The arbiter read of `_timer_publish`, packaged as the spec's
`read(now) -> (Command, isFresh)` interface: the snapshot of
`_current_cmd` together with the freshness flag, which in the source is
the negation of the staleness test `age > command_hold_duration`. -/
def readCommand (hold : ℚ) (st : ArbiterState) (now : ℚ) : Twist × Bool :=
  (st.cmd, !decide (now - st.lastUpdate > hold))

/-- `_apply_stop`: replaces the arbiter state with a zero command at
`rospy.Time(0.0)` and publishes one `Twist()` immediately.  Returns the
new state paired with the list of messages published by the call. -/
def applyStop (_st : ArbiterState) : ArbiterState × List Twist :=
  (stopState, [Twist.zero])

/-- A `std_srvs/Trigger` response. -/
structure TriggerResponse where
  success : Bool
  message : List Char
deriving DecidableEq, Repr

/-- `_handle_stop`: calls `_apply_stop` and answers
`TriggerResponse(success=True, message="Command reset to zero velocities")`. -/
def handleStop (st : ArbiterState) : ArbiterState × List Twist × TriggerResponse :=
  let (st', emitted) := applyStop st
  (st', emitted, ⟨true, ('C' :: 'o' :: 'm' :: 'm' :: 'a' :: 'n' :: 'd' :: ' ' ::
    'r' :: 'e' :: 's' :: 'e' :: 't' :: ' ' :: 't' :: 'o' :: ' ' :: 'z' :: 'e' ::
    'r' :: 'o' :: ' ' :: 'v' :: 'e' :: 'l' :: 'o' :: 'c' :: 'i' :: 't' :: 'i' ::
    'e' :: 's' :: [])⟩)

/-- A run of publish-timer ticks at the given times: each tick emits the
`publishDecision` for the current state and (as in `_timer_publish`)
leaves the state untouched.  Returns the emissions and the final state. -/
def tickTrace (hold : ℚ) : ArbiterState → List ℚ → List Twist × ArbiterState
  | st, [] => ([], st)
  | st, t :: ts =>
      let e := publishDecision hold st t
      let (es, st') := tickTrace hold st ts
      (e :: es, st')

/-! ## Text helpers

Python string primitives used by the node, modelled over `List Char`. -/

/-- JSON whitespace characters (used by `json.loads` between tokens). -/
def isWsChar (c : Char) : Bool :=
  (c == ' ') || (c == '\t') || (c == '\n') || (c == '\r')

/-- Whitespace stripped by Python's `str.strip()` (the codepoints with
`str.isspace()`: ASCII whitespace, the C1 separators, NEL, NBSP, and
the Unicode space-category characters). -/
def isPyWs (c : Char) : Bool :=
  (c == ' ') || (c == '\t') || (c == '\n') || (c == '\r') ||
  (c == '\x0b') || (c == '\x0c') ||
  (0x1c ≤ c.toNat && c.toNat ≤ 0x1f) ||
  (c.toNat == 0x85) || (c.toNat == 0xa0) || (c.toNat == 0x1680) ||
  (0x2000 ≤ c.toNat && c.toNat ≤ 0x200a) ||
  (c.toNat == 0x2028) || (c.toNat == 0x2029) || (c.toNat == 0x202f) ||
  (c.toNat == 0x205f) || (c.toNat == 0x3000)

/-- Python `str.strip()`: drop leading and trailing whitespace. -/
def pyStrip (l : List Char) : List Char :=
  ((l.dropWhile isPyWs).reverse.dropWhile isPyWs).reverse

/-- Python `str.find(c)` for a single character: index of the first
occurrence, `none` standing for Python's `-1`. -/
def findChar (c : Char) : List Char → Option Nat
  | [] => none
  | x :: xs => if x = c then some 0 else (findChar c xs).map (· + 1)

/-- Python `str.rfind(c)` for a single character: index of the last
occurrence, `none` standing for Python's `-1`. -/
def rfindChar (c : Char) (l : List Char) : Option Nat :=
  (findChar c l.reverse).map (fun i => l.length - 1 - i)

/-- Python slice `l[start:stop]` for `0 ≤ start, stop` (as used with
`text[start : end + 1]` in `_extract_twist`). -/
def pySlice (l : List Char) (start stop : Nat) : List Char :=
  (l.drop start).take (stop - start)

/-- Python `needle in hay` prefix test helper. -/
def startsWith : List Char → List Char → Bool
  | a :: as, b :: bs => (a == b) && startsWith as bs
  | [], _ => true
  | _, [] => false

/-- Python `needle in hay` substring test on strings. -/
def containsSub (needle : List Char) : List Char → Bool
  | [] => startsWith needle []
  | c :: rest => startsWith needle (c :: rest) || containsSub needle rest

/-! ## Decimal digits -/

/-- The decimal digit character for `n < 10`. -/
def digitChar (n : Nat) : Char := Char.ofNat (48 + n)

/-- The value of a decimal digit character. -/
def digitVal (c : Char) : Nat := c.toNat - 48

/-- One step of most-significant-digit-first evaluation. -/
def digitStep (a : Nat) (c : Char) : Nat := 10 * a + digitVal c

/-- The natural number denoted by a decimal digit string. -/
def digitsToNat (l : List Char) : Nat := l.foldl digitStep 0

/-- Fuelled decimal rendering of a natural number (most significant
digit first); fuel `n + 1` always suffices. -/
def natToDigitsF : Nat → Nat → List Char
  | 0, _ => []
  | f + 1, n =>
      if n < 10 then [digitChar n]
      else natToDigitsF f (n / 10) ++ [digitChar (n % 10)]

/-- Decimal rendering of a natural number. -/
def natDigits (n : Nat) : List Char := natToDigitsF (n + 1) n

/-- Decimal rendering of the number `m / 10 ^ e` (the JSON text of a
decoded JSON number as Python would re-render it): sign, integer
digits, and — when `e > 0` — a point followed by `e` fractional
digits. -/
def numRepr (m : Int) (e : Nat) : List Char :=
  let ds := natDigits m.natAbs
  let all := List.replicate (e + 1 - ds.length) '0' ++ ds
  let ip := all.take (all.length - e)
  let fp := all.drop (all.length - e)
  (if m < 0 then ['-'] else []) ++ ip ++ (if e = 0 then [] else '.' :: fp)

/-! ## JSON values

The values produced by `json.loads`.  Numbers are decimal literals
`m / 10 ^ e` (an `int` when `e = 0`, a `float` otherwise); objects are
key/value lists in document order (Python dict reads take the last
occurrence of a duplicated key, see `jLookup`). -/

inductive Json where
  | null : Json
  | bool (b : Bool) : Json
  | num (m : Int) (e : Nat) : Json
  | str (s : List Char) : Json
  | arr (xs : List Json) : Json
  | obj (kvs : List (List Char × Json)) : Json

/-- Dictionary lookup: the value of the *last* binding of `k`, as a
Python dict built from a JSON document would hold. -/
def jLookup : List (List Char × Json) → List Char → Option Json
  | [], _ => none
  | (k', v) :: rest, k =>
      match jLookup rest k with
      | some r => some r
      | none => if k' = k then some v else none

/-- The lowercase hexadecimal digit character for `n < 16`. -/
def hexDigitChar (n : Nat) : Char :=
  if n < 10 then Char.ofNat (48 + n) else Char.ofNat (87 + n)

/-- The value of a hexadecimal digit character, either case. -/
def hexVal (c : Char) : Option Nat :=
  if c.isDigit then some (c.toNat - 48)
  else if 'a' ≤ c ∧ c ≤ 'f' then some (c.toNat - 87)
  else if 'A' ≤ c ∧ c ≤ 'F' then some (c.toNat - 55)
  else none

/-- JSON string escaping: `"` and `\` are escaped, the control
characters with short escapes use them, the remaining control
characters use `\u00XX`, and everything else is emitted raw (as
`json.loads` accepts it). -/
def escChar (c : Char) : List Char :=
  if c = '"' ∨ c = '\\' then ['\\', c]
  else if c = '\n' then ['\\', 'n']
  else if c = '\t' then ['\\', 't']
  else if c = '\r' then ['\\', 'r']
  else if c = '\x08' then ['\\', 'b']
  else if c = '\x0c' then ['\\', 'f']
  else if c.toNat < 32 then
    ['\\', 'u', '0', '0', hexDigitChar (c.toNat / 16), hexDigitChar (c.toNat % 16)]
  else [c]

/-- JSON string-body escaping. -/
def escapeStr : List Char → List Char
  | [] => []
  | c :: cs => escChar c ++ escapeStr cs

mutual

/-- Canonical JSON text of a value (no inter-token whitespace). -/
def serialize : Json → List Char
  | .null => 'n' :: 'u' :: 'l' :: 'l' :: []
  | .bool true => 't' :: 'r' :: 'u' :: 'e' :: []
  | .bool false => 'f' :: 'a' :: 'l' :: 's' :: 'e' :: []
  | .num m e => numRepr m e
  | .str s => '"' :: escapeStr s ++ ['"']
  | .arr xs => '[' :: serializeItems xs ++ [']']
  | .obj kvs => '{' :: serializeFields kvs ++ ['}']

/-- Comma-separated JSON texts of array items. -/
def serializeItems : List Json → List Char
  | [] => []
  | [x] => serialize x
  | x :: y :: xs => serialize x ++ ',' :: serializeItems (y :: xs)

/-- Comma-separated `"key":value` JSON texts of object fields. -/
def serializeFields : List (List Char × Json) → List Char
  | [] => []
  | [(k, v)] => '"' :: escapeStr k ++ '"' :: ':' :: serialize v
  | (k, v) :: kv :: kvs =>
      '"' :: escapeStr k ++ '"' :: ':' :: serialize v ++ ',' :: serializeFields (kv :: kvs)

end

/-! ## JSON parsing (`json.loads`)

A fuel-indexed recursive-descent parser over the character list; fuel
`length + 1` suffices for every input that parses at all, and the fuel
recursion keeps every definition kernel-computable.  Strings follow
`json.loads`'s default strict mode (raw control characters rejected,
short escapes and `\uXXXX` with surrogate pairs decoded); numbers
follow the scanner pattern `-?(0|[1-9][0-9]*)(\.[0-9]+)?([eE][+-]?[0-9]+)?`,
with a partial match leaving the unconsumed tail in the rest, where no
continuation of a document accepts it.  Model boundaries: the
non-standard literals `Infinity`, `-Infinity` and `NaN` and
lone-surrogate `\uXXXX` escapes (both accepted by `json.loads` but
with no counterpart in `ℚ` resp. in this model's character type)
fail here, and a parsed number is kept as its exact decimal value. -/

/-- Skip JSON inter-token whitespace. -/
def skipWs (l : List Char) : List Char := l.dropWhile isWsChar

/-- JSON string escape codes. -/
def unescChar (c : Char) : Option Char :=
  if c = '"' then some '"'
  else if c = '\\' then some '\\'
  else if c = '/' then some '/'
  else if c = 'n' then some '\n'
  else if c = 't' then some '\t'
  else if c = 'r' then some '\r'
  else if c = 'b' then some '\x08'
  else if c = 'f' then some '\x0c'
  else none

/-- Scanner state while parsing a JSON string body: in the plain text,
after a backslash, inside a `\uXXXX` escape (`acc` the value of the `k`
digits read so far), or expecting the `\uXXXX` low half of a surrogate
pair after a high surrogate `hi`. -/
inductive StrState where
  | norm : StrState
  | esc : StrState
  | uni (acc k : Nat) : StrState
  | pairSlash (hi : Nat) : StrState
  | pairU (hi : Nat) : StrState
  | uniLow (hi acc k : Nat) : StrState

/-- Parse the body of a JSON string in `json.loads`'s default strict
mode: raw control characters (below `0x20`) are rejected, the short
escapes and `\uXXXX` (including surrogate pairs) are decoded.  A lone
surrogate escape — which Python would keep as a lone-surrogate `str` —
has no counterpart in this model's character type and fails. -/
def parseStrS : StrState → List Char → Option (List Char × List Char)
  | _, [] => none
  | .norm, c :: rest =>
      if c = '"' then some ([], rest)
      else if c = '\\' then parseStrS .esc rest
      else if c.toNat < 32 then none
      else
        match parseStrS .norm rest with
        | some (s, r) => some (c :: s, r)
        | none => none
  | .esc, c :: rest =>
      if c = 'u' then parseStrS (.uni 0 0) rest
      else
        match unescChar c with
        | some c' =>
            match parseStrS .norm rest with
            | some (s, r) => some (c' :: s, r)
            | none => none
        | none => none
  | .uni acc k, c :: rest =>
      match hexVal c with
      | none => none
      | some v =>
          if k = 3 then
            if 0xd800 ≤ 16 * acc + v ∧ 16 * acc + v ≤ 0xdbff then
              parseStrS (.pairSlash (16 * acc + v)) rest
            else if 0xdc00 ≤ 16 * acc + v ∧ 16 * acc + v ≤ 0xdfff then none
            else
              match parseStrS .norm rest with
              | some (s, r) => some (Char.ofNat (16 * acc + v) :: s, r)
              | none => none
          else parseStrS (.uni (16 * acc + v) (k + 1)) rest
  | .pairSlash hi, c :: rest =>
      if c = '\\' then parseStrS (.pairU hi) rest else none
  | .pairU hi, c :: rest =>
      if c = 'u' then parseStrS (.uniLow hi 0 0) rest else none
  | .uniLow hi acc k, c :: rest =>
      match hexVal c with
      | none => none
      | some v =>
          if k = 3 then
            if 0xdc00 ≤ 16 * acc + v ∧ 16 * acc + v ≤ 0xdfff then
              match parseStrS .norm rest with
              | some (s, r) =>
                  some (Char.ofNat
                    (0x10000 + (hi - 0xd800) * 0x400 + (16 * acc + v - 0xdc00)) :: s, r)
              | none => none
            else none
          else parseStrS (.uniLow hi (16 * acc + v) (k + 1)) rest

/-- Parse the body of a JSON string (after the opening quote), up to and
including the closing quote; returns the decoded body and the rest. -/
def parseStrBody (cs : List Char) : Option (List Char × List Char) :=
  parseStrS .norm cs

/-- Parse the integer-digit part of a JSON number, mirroring the
scanner pattern `0|[1-9][0-9]*`: a leading `0` matches alone, so any
digit following it is left unconsumed (where no continuation of a
document ever accepts it, reproducing the rejection of leading
zeros). -/
def parseIntPart : List Char → Option (List Char × List Char)
  | [] => none
  | c :: r =>
      if c = '0' then some (['0'], r)
      else if c.isDigit then
        some (c :: r.takeWhile Char.isDigit, r.dropWhile Char.isDigit)
      else none

/-- Parse the optional fraction part `.digits` of a JSON number; as in
the scanner regex, when no digit follows the point nothing is consumed
(the point is left in the rest). -/
def parseFracPart (cs : List Char) : List Char × List Char :=
  match cs with
  | '.' :: r =>
      if r.takeWhile Char.isDigit = [] then ([], cs)
      else (r.takeWhile Char.isDigit, r.dropWhile Char.isDigit)
  | _ => ([], cs)

/-- Parse the optional exponent part `[eE][+-]?digits` of a JSON
number; as in the scanner regex, a malformed exponent consumes nothing
(the `e` is left in the rest). -/
def parseExpPart (cs : List Char) : Int × List Char :=
  match cs with
  | [] => ((0 : Int), cs)
  | c :: r1 =>
      if c = 'e' ∨ c = 'E' then
        match r1 with
        | [] => ((0 : Int), cs)
        | s :: r2 =>
            if s = '+' then
              if r2.takeWhile Char.isDigit = [] then ((0 : Int), cs)
              else ((digitsToNat (r2.takeWhile Char.isDigit) : Int),
                r2.dropWhile Char.isDigit)
            else if s = '-' then
              if r2.takeWhile Char.isDigit = [] then ((0 : Int), cs)
              else (-(digitsToNat (r2.takeWhile Char.isDigit) : Int),
                r2.dropWhile Char.isDigit)
            else
              if r1.takeWhile Char.isDigit = [] then ((0 : Int), cs)
              else ((digitsToNat (r1.takeWhile Char.isDigit) : Int),
                r1.dropWhile Char.isDigit)
      else ((0 : Int), cs)

/-- Parse an unsigned JSON number: integer digits (a leading zero only
alone), optional fraction and optional exponent; returns the decimal
mantissa and the power-of-ten scale, exponent minus the count of
fraction digits. -/
def parseUNum (cs1 : List Char) : Option ((Nat × Int) × List Char) :=
  match parseIntPart cs1 with
  | none => none
  | some (ds, r1) =>
      match parseFracPart r1 with
      | (fs, r2) =>
          match parseExpPart r2 with
          | (ex, r3) =>
              some ((digitsToNat (ds ++ fs), ex - (fs.length : Int)), r3)

/-- The JSON value of a signed decimal mantissa and power-of-ten
scale: a nonnegative scale multiplies into the mantissa, a negative
scale keeps that many decimal places. -/
def mkNum (m s : Int) : Json :=
  if 0 ≤ s then Json.num (m * 10 ^ s.toNat) 0 else Json.num m (-s).toNat

/-- Parse a JSON number: optional minus sign, then an unsigned
number. -/
def parseNum (cs : List Char) : Option (Json × List Char) :=
  if cs.head? = some '-' then
    (parseUNum cs.tail).map fun p => (mkNum (-(p.1.1 : Int)) p.1.2, p.2)
  else
    (parseUNum cs).map fun p => (mkNum (p.1.1 : Int) p.1.2, p.2)

mutual

/-- Parse one JSON value from the (possibly whitespace-prefixed) input,
returning the value and the unconsumed rest. -/
def parseVal : Nat → List Char → Option (Json × List Char)
  | 0, _ => none
  | f + 1, cs0 =>
    match skipWs cs0 with
    | [] => none
    | c :: rest =>
      if c = '{' then
        match skipWs rest with
        | '}' :: r => some (Json.obj [], r)
        | cs' =>
          match parseFields f cs' with
          | some (kvs, r) => some (Json.obj kvs, r)
          | none => none
      else if c = '[' then
        match skipWs rest with
        | ']' :: r => some (Json.arr [], r)
        | cs' =>
          match parseItems f cs' with
          | some (vs, r) => some (Json.arr vs, r)
          | none => none
      else if c = '"' then
        match parseStrBody rest with
        | some (s, r) => some (Json.str s, r)
        | none => none
      else if c = 't' then
        match rest with
        | 'r' :: 'u' :: 'e' :: r => some (Json.bool true, r)
        | _ => none
      else if c = 'f' then
        match rest with
        | 'a' :: 'l' :: 's' :: 'e' :: r => some (Json.bool false, r)
        | _ => none
      else if c = 'n' then
        match rest with
        | 'u' :: 'l' :: 'l' :: r => some (Json.null, r)
        | _ => none
      else if c = '-' ∨ c.isDigit then parseNum (c :: rest)
      else none

/-- Parse one or more comma-separated array items followed by `]`. -/
def parseItems : Nat → List Char → Option (List Json × List Char)
  | 0, _ => none
  | f + 1, cs =>
    match parseVal f cs with
    | some (v, r1) =>
        match skipWs r1 with
        | ',' :: r2 =>
            match parseItems f (skipWs r2) with
            | some (vs, r3) => some (v :: vs, r3)
            | none => none
        | ']' :: r2 => some ([v], r2)
        | _ => none
    | none => none

/-- Parse one or more comma-separated `"key":value` fields followed by
`}`. -/
def parseFields : Nat → List Char → Option (List (List Char × Json) × List Char)
  | 0, _ => none
  | f + 1, cs =>
    match cs with
    | '"' :: cs1 =>
        match parseStrBody cs1 with
        | some (k, r1) =>
            match skipWs r1 with
            | ':' :: r2 =>
                match parseVal f (skipWs r2) with
                | some (v, r3) =>
                    match skipWs r3 with
                    | ',' :: r4 =>
                        match parseFields f (skipWs r4) with
                        | some (kvs, r5) => some ((k, v) :: kvs, r5)
                        | none => none
                    | '}' :: r4 => some ([(k, v)], r4)
                    | _ => none
                | none => none
            | _ => none
        | none => none
    | _ => none

end

/-- `json.loads`: parse one JSON document and require that only
whitespace follows it. -/
def jparse (cs : List Char) : Option Json :=
  match parseVal (cs.length + 1) cs with
  | some (v, rest) => if skipWs rest = [] then some v else none
  | none => none

/-- Continuations after which a serialized JSON value is parsed back
unambiguously: the end of input or a delimiter token. -/
def Delim (rest : List Char) : Prop :=
  rest = [] ∨ ∃ c r, rest = c :: r ∧ (c = ',' ∨ c = '}' ∨ c = ']')

mutual

/-- Fuel sufficient for `parseVal` to parse the serialization of a
value. -/
def jfuel : Json → Nat
  | .arr xs => 1 + jfuelItems xs
  | .obj kvs => 1 + jfuelFields kvs
  | _ => 1

/-- Fuel sufficient for `parseItems` on serialized items. -/
def jfuelItems : List Json → Nat
  | [] => 0
  | v :: vs => 1 + max (jfuel v) (jfuelItems vs)

/-- Fuel sufficient for `parseFields` on serialized fields. -/
def jfuelFields : List (List Char × Json) → Nat
  | [] => 0
  | (_, v) :: kvs => 1 + max (jfuel v) (jfuelFields kvs)

end

/-! ## Python semantics helpers

The Python operations `_extract_twist` and `_to_twist` apply to decoded
JSON values, with the exceptions they can raise. -/

/-- Python exceptions distinguished by this development.  `valueError`
(the only one raised explicitly, with a diagnostic message) is the
spec's `MalformedResponse`; the rest are the built-in exceptions raised
implicitly by indexing, attribute access, or `float()`. -/
inductive PyErr where
  | valueError (msg : List Char) : PyErr
  | indexError : PyErr
  | keyError : PyErr
  | typeError : PyErr
  | attributeError : PyErr
deriving DecidableEq, Repr

/-- Python `key in j`: dict key lookup, list membership (which for the
string keys used here only matches equal strings), or substring test;
`TypeError` on non-containers. -/
def pyContains (j : Json) (k : List Char) : Except PyErr Bool :=
  match j with
  | .obj kvs => .ok (jLookup kvs k).isSome
  | .arr xs => .ok (xs.any fun x => match x with | .str s => s = k | _ => false)
  | .str s => .ok (containsSub k s)
  | _ => .error .typeError

/-- Python `j[k]` with a string key: dict lookup (`KeyError` when
missing), `TypeError` on lists/strings (indices must be integers) and
on scalars. -/
def pyGetItemStr (j : Json) (k : List Char) : Except PyErr Json :=
  match j with
  | .obj kvs =>
      match jLookup kvs k with
      | some v => .ok v
      | none => .error .keyError
  | _ => .error .typeError

/-- Python `j[0]`: head of a list or one-character string
(`IndexError` when empty), `KeyError` on a string-keyed dict,
`TypeError` on scalars. -/
def pyGetItem0 (j : Json) : Except PyErr Json :=
  match j with
  | .arr [] => .error .indexError
  | .arr (x :: _) => .ok x
  | .str [] => .error .indexError
  | .str (c :: _) => .ok (.str [c])
  | .obj _ => .error .keyError
  | _ => .error .typeError

/-- Python `j.get(k, default)`: dict `.get`; `AttributeError` when `j`
is not a dict. -/
def pyDictGet (j : Json) (k : List Char) (dflt : Json) : Except PyErr Json :=
  match j with
  | .obj kvs => .ok ((jLookup kvs k).getD dflt)
  | _ => .error .attributeError

/-- Python `str(j)` on a decoded JSON value.  Strings are returned
unchanged (the only case the verified claims evaluate); numbers render
as their decimal literal, booleans and `None` as their Python names,
and containers via the canonical JSON text (an approximation of
Python's `repr`-based rendering, which uses single quotes). -/
def pyStr (j : Json) : List Char :=
  match j with
  | .str s => s
  | .num m e => numRepr m e
  | .bool true => ['T', 'r', 'u', 'e']
  | .bool false => ['F', 'a', 'l', 's', 'e']
  | .null => ['N', 'o', 'n', 'e']
  | .arr xs => serialize (.arr xs)
  | .obj kvs => serialize (.obj kvs)

/-! ## `_extract_twist` -/

/-- The content-locating half of `_extract_twist` (lines 126-131): if
`"choices" in response_json`, take `response_json["choices"][0]`, then
`choice.get("message", {})`, and `message.get("content", "")` when
`message` is a dict, else `message` itself; otherwise
`response_json.get("content", "")`. -/
def choicesKey : List Char := ['c', 'h', 'o', 'i', 'c', 'e', 's']

def messageKey : List Char := ['m', 'e', 's', 's', 'a', 'g', 'e']

def contentKey : List Char := ['c', 'o', 'n', 't', 'e', 'n', 't']

def locateContent (r : Json) : Except PyErr Json := do
  let has ← pyContains r choicesKey
  if has then do
    let choices ← pyGetItemStr r choicesKey
    let choice ← pyGetItem0 choices
    let message ← pyDictGet choice messageKey (Json.obj [])
    match message with
    | .obj _ => pyDictGet message contentKey (Json.str [])
    | _ => pure message
  else
    pyDictGet r contentKey (Json.str [])

/-- The content-scanning half of `_extract_twist` (lines 133-144): a
dict content is returned directly; otherwise the text is stripped, the
span from the first `{` to the last `}` is taken, and `json.loads` is
applied to it, each failure raising `ValueError` with a diagnostic. -/
def scanContent (content : Json) : Except PyErr Json :=
  match content with
  | .obj kvs => .ok (.obj kvs)
  | _ =>
    let text := pyStrip (pyStr content)
    match findChar '{' text, rfindChar '}' text with
    | some s, some e =>
        match jparse (pySlice text s (e + 1)) with
        | some j => .ok j
        | none =>
            .error (.valueError
              ("Failed to parse JSON from LLM response: ".toList ++ text))
    | _, _ => .error (.valueError "LLM response does not contain JSON content".toList)

/-- `_extract_twist(response_json)`: locate the content field, then
scan it for an embedded JSON object. -/
def extractTwist (r : Json) : Except PyErr Json :=
  (locateContent r).bind scanContent

/-- The substring `text[start : end + 1]` selected by `_extract_twist`,
from the first `{` to the last `}` (empty when either brace is
missing). -/
def braceSlice (t : List Char) : List Char :=
  match findChar '{' t, rfindChar '}' t with
  | some i, some j => pySlice t i (j + 1)
  | _, _ => []

/-! ## `_to_twist` -/

/-- Python `float(s)` on a string: optional sign, then digits with an
optional point (exponents, `inf`/`nan` and underscores are not
modelled); surrounding whitespace is ignored. -/
def parseFloatStr (s : List Char) : Option ℚ :=
  let t := pyStrip s
  let neg : Bool := match t with | '-' :: _ => true | _ => false
  let t1 := match t with | '-' :: r => r | '+' :: r => r | _ => t
  let ds := t1.takeWhile Char.isDigit
  let r1 := t1.dropWhile Char.isDigit
  let sgn : ℚ := if neg then -1 else 1
  match r1 with
  | [] => if ds = [] then none else some (sgn * (digitsToNat ds : ℚ))
  | '.' :: r2 =>
      let fs := r2.takeWhile Char.isDigit
      let r3 := r2.dropWhile Char.isDigit
      if r3 = [] then
        if ds = [] ∧ fs = [] then none
        else some (sgn * ((digitsToNat ds : ℚ) + (digitsToNat fs : ℚ) / 10 ^ fs.length))
      else none
  | _ => none

/-- Python `float(j)` on a decoded JSON value: numbers and booleans
convert, strings are parsed (`ValueError` on failure), everything else
raises `TypeError`. -/
def pyFloat (j : Json) : Except PyErr ℚ :=
  match j with
  | .num m e => .ok ((m : ℚ) / 10 ^ e)
  | .bool b => .ok (if b then 1 else 0)
  | .str s =>
      match parseFloatStr s with
      | some q => .ok q
      | none => .error (.valueError "could not convert string to float".toList)
  | _ => .error .typeError

/-- `_to_twist(data)` (lines 146-165): read `linear`/`angular` with
empty-dict defaults, clamp `linear.x`, `linear.y` (forced to `0.0`
unless `allow_y_motion`) and `angular.z`, zero the unused axes, and
strip a string `comment` (any other type yields no comment). -/
def linearKey : List Char := ['l', 'i', 'n', 'e', 'a', 'r']

def angularKey : List Char := ['a', 'n', 'g', 'u', 'l', 'a', 'r']

def commentKey : List Char := ['c', 'o', 'm', 'm', 'e', 'n', 't']

def toTwist (cfg : Config) (data : Json) : Except PyErr (Twist × Option (List Char)) := do
  let linear ← pyDictGet data linearKey (Json.obj [])
  let angular ← pyDictGet data angularKey (Json.obj [])
  let lxj ← pyDictGet linear ['x'] (Json.num 0 0)
  let lx ← pyFloat lxj
  let lyj ← pyDictGet linear ['y'] (Json.num 0 0)
  let yTarget ← pyFloat lyj
  let azj ← pyDictGet angular ['z'] (Json.num 0 0)
  let az ← pyFloat azj
  let commentj ← pyDictGet data commentKey Json.null
  let comment : Option (List Char) :=
    match commentj with
    | .str s => some (pyStrip s)
    | _ => none
  pure (⟨clamp lx cfg.maxLinear,
         if cfg.allowY then clamp yTarget cfg.maxSide else 0,
         0, 0, 0,
         clamp az cfg.maxAngular⟩, comment)

/-! ## `_instruction_callback` -/

/-- Failures of the remote completion call, as seen at the `try` block:
a transport error from `requests`, a non-2xx status from
`raise_for_status`, or a body that `response.json()` cannot decode. -/
inductive NetErr where
  | transport : NetErr
  | remoteStatus (code : Nat) : NetErr
  | badBody : NetErr
deriving DecidableEq, Repr

/-- The observable outcome of one `_instruction_callback` invocation:
the arbiter state it leaves behind, the commands it published itself,
whether the remote service was contacted, and the comment reported. -/
structure HandlerResult where
  state : ArbiterState
  emitted : List Twist
  remoteCalled : Bool
  comment : Option (List Char)
deriving DecidableEq, Repr

/-- `_instruction_callback(msg)` (lines 86-109): strip the directive and
ignore it when empty; otherwise contact the remote service (its outcome
is the `remote` argument), extract and clamp, and on any exception run
`_apply_stop` and return; on success install the new command with the
current time. -/
def instructionCallback (cfg : Config) (st : ArbiterState) (msgData : List Char)
    (remote : Except NetErr Json) (now : ℚ) : HandlerResult :=
  let instruction := pyStrip msgData
  if instruction = [] then ⟨st, [], false, none⟩
  else
    match remote with
    | .error _ => ⟨stopState, [Twist.zero], true, none⟩
    | .ok rawJson =>
      match extractTwist rawJson with
      | .error _ => ⟨stopState, [Twist.zero], true, none⟩
      | .ok data =>
        match toTwist cfg data with
        | .error _ => ⟨stopState, [Twist.zero], true, none⟩
        | .ok (tw, comment) => ⟨⟨tw, now⟩, [], true, comment⟩

end LlmMotionBridge

namespace LlmMotionBridge

/-- C1: `read(now)` reports the held command as fresh iff
`now - lastUpdate ≤ holdDuration`; an age exactly equal to the hold
duration is fresh (the held command is emitted by the publish tick), and
any strictly greater age is stale (the zero command is emitted). -/
theorem read_fresh_iff_within_hold (hold : ℚ) (c : Twist) (last now : ℚ) :
    ((readCommand hold ⟨c, last⟩ now).2 = true ↔ now - last ≤ hold) ∧
    (now - last ≤ hold → publishDecision hold ⟨c, last⟩ now = c) ∧
    (hold < now - last → publishDecision hold ⟨c, last⟩ now = Twist.zero) := by
  refine ⟨?_, ?_, ?_⟩
  · simp [readCommand, not_lt]
  · intro h
    simp [publishDecision, not_lt.2 h]
  · intro h
    simp [publishDecision, h]

/-- Witness for C1 at the freshness boundary: with a hold duration of 2,
a command set at time 0 read at time 2 is still fresh and is the one
emitted. -/
theorem read_fresh_iff_within_hold_witness :
    (readCommand 2 ⟨⟨1, 0, 0, 0, 0, 0⟩, 0⟩ 2).2 = true ∧
    publishDecision 2 ⟨⟨1, 0, 0, 0, 0, 0⟩, 0⟩ 2 = ⟨1, 0, 0, 0, 0, 0⟩ := by
  exact ⟨(read_fresh_iff_within_hold 2 ⟨1, 0, 0, 0, 0, 0⟩ 0 2).1.mpr (by norm_num),
    (read_fresh_iff_within_hold 2 ⟨1, 0, 0, 0, 0, 0⟩ 0 2).2.1 (by norm_num)⟩

/-- A non-positive limit disables the axis. -/
theorem clamp_of_nonpos (v limit : ℚ) (h : limit ≤ 0) : clamp v limit = 0 := by
  simp [clamp, h]

/-- With a positive limit the clamped value stays in `[-limit, limit]`. -/
theorem clamp_mem (v limit : ℚ) (h : 0 < limit) :
    -limit ≤ clamp v limit ∧ clamp v limit ≤ limit := by
  rw [clamp, if_neg (not_le.2 h)]
  exact ⟨le_max_right _ _, max_le (min_le_right _ _) (by linarith)⟩

/-- With a positive limit, values within the limit pass unchanged. -/
theorem clamp_id (v limit : ℚ) (h : 0 < limit) (hv : |v| ≤ limit) :
    clamp v limit = v := by
  rw [abs_le] at hv
  rw [clamp, if_neg (not_le.2 h), min_eq_left hv.2, max_eq_left hv.1]

/-- For every limit, the clamped magnitude is at most `max limit 0`. -/
theorem clamp_abs_le (v limit : ℚ) : |clamp v limit| ≤ max limit 0 := by
  rcases le_or_lt limit 0 with hl | hl
  · rw [clamp_of_nonpos v limit hl]
    simp
  · have hm := clamp_mem v limit hl
    rw [abs_le, max_eq_left hl.le]
    exact ⟨hm.1, hm.2⟩

/-- Inversion of a successful `Except` bind: the first step must have
succeeded, and the continuation on its value gives the final result. -/
theorem bindOk {ε α β : Type} {x : Except ε α} {g : α → Except ε β} {r : β}
    (h : (x >>= g) = Except.ok r) : ∃ u, x = Except.ok u ∧ g u = Except.ok r := by
  cases hx : x with
  | error e =>
      rw [hx] at h
      exact absurd h (by simp [Bind.bind, Except.bind])
  | ok u =>
      rw [hx] at h
      exact ⟨u, rfl, h⟩

/-- C2: a non-positive limit forces the clamped value to `0` regardless
of the input; a positive limit confines the result to `[-limit, limit]`
and is the identity on inputs already within the limits. -/
theorem clamp_spec (v limit : ℚ) :
    (limit ≤ 0 → clamp v limit = 0) ∧
    (0 < limit → -limit ≤ clamp v limit ∧ clamp v limit ≤ limit) ∧
    (0 < limit → |v| ≤ limit → clamp v limit = v) :=
  ⟨clamp_of_nonpos v limit, clamp_mem v limit, clamp_id v limit⟩

/-- Witness for C2: limit `-1` forces `5` to `0`; limit `2` keeps `5`
within `[-2, 2]` and leaves `1` untouched. -/
theorem clamp_spec_witness :
    clamp 5 (-1) = 0 ∧ (-2 ≤ clamp 5 2 ∧ clamp 5 2 ≤ 2) ∧ clamp 1 2 = 1 := by
  exact ⟨(clamp_spec 5 (-1)).1 (by norm_num),
    (clamp_spec 5 2).2.1 (by norm_num),
    (clamp_spec 1 2).2.2 (by norm_num) (by norm_num)⟩

/-- C5 counterexample: immediately after a reset the state is
`{zero command, epoch}`, and a read at `now = 1 ≥ epoch` under the
default hold duration `3/2` still reports `isFresh = true` (since
`1 - 0 ≤ 3/2`), contradicting the claim that the very next read at any
`now ≥ epoch` returns `isFresh = false`. -/
theorem reset_read_counterexample :
    (applyStop ⟨⟨1, 0, 0, 0, 0, 0⟩, 5⟩).1 = stopState ∧
    (1 : ℚ) ≥ 0 ∧
    (readCommand (3 / 2) stopState 1).2 = true := by
  refine ⟨rfl, by norm_num, ?_⟩
  simp only [readCommand, stopState, Bool.not_eq_true']
  rw [decide_eq_false_iff_not]
  norm_num

/-- C5 (amended): after a reset, with no intervening set, a read at any
time returns the zero command (so the publish decision is the zero
command as well), and `isFresh = false` exactly when `now - epoch`
exceeds the hold duration — within the hold window of the epoch the
state still reads as fresh, but the held command is itself zero. -/
theorem reset_read_zero (hold now : ℚ) :
    (readCommand hold stopState now).1 = Twist.zero ∧
    publishDecision hold stopState now = Twist.zero ∧
    ((readCommand hold stopState now).2 = false ↔ hold < now - 0) := by
  refine ⟨rfl, ?_, ?_⟩
  · unfold publishDecision stopState
    split <;> rfl
  · simp [readCommand, stopState]

/-- C7: the stop service handler unconditionally resets the arbiter to
the zero command at the epoch, publishes one zero command, and replies
with `success = true`. -/
theorem handle_stop_spec (st : ArbiterState) :
    (handleStop st).1 = stopState ∧
    (handleStop st).2.1 = [Twist.zero] ∧
    (handleStop st).2.2.success = true := by
  exact ⟨rfl, rfl, rfl⟩

/-- C9: starting from the reset state, every publish tick emits the zero
command whatever its time — fresh or stale — and the state is unchanged,
so no nonzero command can be emitted between a reset and the next set. -/
theorem ticks_after_reset_all_zero (hold : ℚ) (times : List ℚ) :
    tickTrace hold stopState times = (times.map (fun _ => Twist.zero), stopState) := by
  induction times with
  | nil => rfl
  | cons t ts ih =>
      have he : publishDecision hold stopState t = Twist.zero := by
        unfold publishDecision stopState
        split <;> rfl
      simp [tickTrace, he, ih]

/-- C3 counterexample: with a configured linear limit of `-1` (a "any
limits configuration" instance) the empty payload clamps to the zero
command, whose `linear.x` magnitude `0` is *not* `≤ maxLinear = -1`: the
claimed bound `|linear.x| ≤ maxLinear` fails for non-positive limits. -/
theorem to_twist_negative_limit_counterexample :
    toTwist ⟨-1, 1, 1, true, 1⟩ (Json.obj []) = .ok (Twist.zero, none) ∧
    ¬ (|Twist.zero.linX| ≤ (-1 : ℚ)) := by
  constructor
  · unfold toTwist
    simp only [pyDictGet, jLookup, Option.getD, pyFloat, bind, Except.bind, pure, Except.pure]
    norm_num [clamp, Twist.zero]
  · norm_num [Twist.zero]

/-- C3 (amended): every command produced by `_to_twist` has exactly zero
`linear.z`, `angular.x`, `angular.y`; its `linear.x`, `linear.y` and
`angular.z` magnitudes are bounded by `max limit 0` for the respective
limits (equivalently, by the limit whenever the limit is nonnegative);
and `linear.y` is exactly zero whenever lateral motion is disabled. -/
theorem to_twist_invariant (cfg : Config) (data : Json) (tw : Twist)
    (c : Option (List Char)) (h : toTwist cfg data = .ok (tw, c)) :
    tw.linZ = 0 ∧ tw.angX = 0 ∧ tw.angY = 0 ∧
    |tw.linX| ≤ max cfg.maxLinear 0 ∧
    |tw.linY| ≤ max cfg.maxSide 0 ∧
    (cfg.allowY = false → tw.linY = 0) ∧
    |tw.angZ| ≤ max cfg.maxAngular 0 := by
  unfold toTwist at h
  obtain ⟨linear, h1, h⟩ := bindOk h
  obtain ⟨angular, h2, h⟩ := bindOk h
  obtain ⟨lxj, h3, h⟩ := bindOk h
  obtain ⟨lx, h4, h⟩ := bindOk h
  obtain ⟨lyj, h5, h⟩ := bindOk h
  obtain ⟨yT, h6, h⟩ := bindOk h
  obtain ⟨azj, h7, h⟩ := bindOk h
  obtain ⟨az, h8, h⟩ := bindOk h
  obtain ⟨cj, h9, h⟩ := bindOk h
  have htw : tw = ⟨clamp lx cfg.maxLinear,
      if cfg.allowY then clamp yT cfg.maxSide else 0, 0, 0, 0,
      clamp az cfg.maxAngular⟩ := by
    cases cj <;> exact ((Prod.mk.inj (Except.ok.inj h)).1).symm
  subst htw
  refine ⟨rfl, rfl, rfl, clamp_abs_le .., ?_, ?_, clamp_abs_le ..⟩
  · cases hA : cfg.allowY with
    | true => simpa [hA] using clamp_abs_le yT cfg.maxSide
    | false => simp [hA]
  · intro hA
    simp [hA]

/-- Witness for C3 (amended) at the default-shaped configuration and the
empty payload: the produced command is zero on every axis and satisfies
all the bounds. -/
theorem to_twist_invariant_witness :
    Twist.zero.linZ = 0 ∧ Twist.zero.angX = 0 ∧ Twist.zero.angY = 0 ∧
    |Twist.zero.linX| ≤ max (3 / 5 : ℚ) 0 ∧
    |Twist.zero.linY| ≤ max (1 / 5 : ℚ) 0 ∧
    ((false : Bool) = false → Twist.zero.linY = 0) ∧
    |Twist.zero.angZ| ≤ max (6 / 5 : ℚ) 0 := by
  exact to_twist_invariant ⟨3 / 5, 1 / 5, 6 / 5, false, 3 / 2⟩ (Json.obj [])
    Twist.zero none (by
      unfold toTwist
      simp only [pyDictGet, jLookup, Option.getD, pyFloat, bind, Except.bind, pure, Except.pure]
      norm_num [clamp, Twist.zero])

/-- C4: whenever the remote call fails, or extraction fails on its
result, or clamping fails on the extracted payload, the handler of a
non-empty directive resets the arbiter to the zero command at the epoch,
publishes exactly one zero command, and returns no comment — the error
stops at the handler (which is a total function into `HandlerResult`). -/
theorem pipeline_failure_resets (cfg : Config) (st : ArbiterState)
    (msgData : List Char) (remote : Except NetErr Json) (now : ℚ)
    (hmsg : pyStrip msgData ≠ [])
    (hfail : (∃ e, remote = Except.error e) ∨
      (∃ r e, remote = Except.ok r ∧ extractTwist r = Except.error e) ∨
      (∃ r d e, remote = Except.ok r ∧ extractTwist r = Except.ok d ∧
        toTwist cfg d = Except.error e)) :
    instructionCallback cfg st msgData remote now =
      ⟨stopState, [Twist.zero], true, none⟩ := by
  rcases hfail with ⟨e, he⟩ | ⟨r, e, hr, hex⟩ | ⟨r, d, e, hr, hex, htw⟩
  · subst he
    simp [instructionCallback, hmsg]
  · subst hr
    simp [instructionCallback, hmsg, hex]
  · subst hr
    simp [instructionCallback, hmsg, hex, htw]

/-- Witness for C4: a transport failure on the directive `"go"` resets
the state and emits one zero command. -/
theorem pipeline_failure_resets_witness :
    instructionCallback ⟨3 / 5, 1 / 5, 6 / 5, false, 3 / 2⟩ ⟨⟨1, 0, 0, 0, 0, 0⟩, 5⟩
      ['g', 'o'] (Except.error NetErr.transport) 7 =
      ⟨stopState, [Twist.zero], true, none⟩ :=
  pipeline_failure_resets _ _ _ _ _ (by decide)
    (Or.inl ⟨NetErr.transport, rfl⟩)

/-- C8: a directive that strips to the empty string is ignored: the
handler returns normally, leaves the arbiter state untouched, emits
nothing, and never contacts the remote service. -/
theorem empty_directive_noop (cfg : Config) (st : ArbiterState)
    (msgData : List Char) (remote : Except NetErr Json) (now : ℚ)
    (h : pyStrip msgData = []) :
    instructionCallback cfg st msgData remote now = ⟨st, [], false, none⟩ := by
  simp [instructionCallback, h]

/-- Witness for C8: a whitespace-only directive is a no-op. -/
theorem empty_directive_noop_witness :
    instructionCallback ⟨3 / 5, 1 / 5, 6 / 5, false, 3 / 2⟩ ⟨⟨1, 0, 0, 0, 0, 0⟩, 5⟩
      [' ', '\t'] (Except.error NetErr.transport) 7 =
      ⟨⟨⟨1, 0, 0, 0, 0, 0⟩, 5⟩, [], false, none⟩ :=
  empty_directive_noop _ _ _ _ _ (by decide)

/-- C10: a response whose `choices` value is the empty list makes
`_extract_twist` fail with the generic out-of-bounds `IndexError` of
`choices[0]` — not the diagnostic `ValueError` (`MalformedResponse`) —
and the content-scanning logic is reached only when `choices` is absent
or its list is non-empty. -/
theorem choices_empty_generic_failure :
    (∀ kvs, jLookup kvs choicesKey = some (Json.arr []) →
      extractTwist (Json.obj kvs) = .error .indexError ∧
      ∀ m, extractTwist (Json.obj kvs) ≠ .error (.valueError m)) ∧
    (∀ kvs c, locateContent (Json.obj kvs) = .ok c →
      jLookup kvs choicesKey = none ∨
      ∃ x xs, jLookup kvs choicesKey = some (Json.arr (x :: xs))) := by
  constructor
  · intro kvs hlk
    have hx : extractTwist (Json.obj kvs) = .error .indexError := by
      simp [extractTwist, locateContent, pyContains, hlk, pyGetItemStr, pyGetItem0,
        bind, Except.bind]
    exact ⟨hx, fun m => by simp [hx]⟩
  · intro kvs c h
    cases hlk : jLookup kvs choicesKey with
    | none => exact Or.inl rfl
    | some v =>
        cases v with
        | arr xs =>
            cases xs with
            | nil =>
                exfalso
                simp [locateContent, pyContains, hlk, pyGetItemStr, pyGetItem0,
                  bind, Except.bind] at h
            | cons x xs => exact Or.inr ⟨x, xs, rfl⟩
        | str s =>
            exfalso
            cases s with
            | nil =>
                simp [locateContent, pyContains, hlk, pyGetItemStr, pyGetItem0,
                  bind, Except.bind] at h
            | cons ch cs =>
                simp [locateContent, pyContains, hlk, pyGetItemStr, pyGetItem0,
                  pyDictGet, bind, Except.bind] at h
        | null =>
            exfalso
            simp [locateContent, pyContains, hlk, pyGetItemStr, pyGetItem0,
              bind, Except.bind] at h
        | bool b =>
            exfalso
            simp [locateContent, pyContains, hlk, pyGetItemStr, pyGetItem0,
              bind, Except.bind] at h
        | num m e =>
            exfalso
            simp [locateContent, pyContains, hlk, pyGetItemStr, pyGetItem0,
              bind, Except.bind] at h
        | obj kvs' =>
            exfalso
            simp [locateContent, pyContains, hlk, pyGetItemStr, pyGetItem0,
              bind, Except.bind] at h

/-- Witness for C10: the concrete response `{"choices": []}` fails with
`IndexError`. -/
theorem choices_empty_generic_failure_witness :
    extractTwist (Json.obj [(choicesKey, Json.arr [])]) = .error .indexError :=
  (choices_empty_generic_failure.1 [(choicesKey, Json.arr [])] (by simp [jLookup])).1

/-! ## Round-trip support: characters and digit strings -/

theorem takeWhile_append_all {p : Char → Bool} (l r : List Char)
    (h : ∀ c ∈ l, p c = true) : (l ++ r).takeWhile p = l ++ r.takeWhile p := by
  induction l with
  | nil => rfl
  | cons c l ih =>
      have hc : p c = true := h c (by simp)
      simp only [List.cons_append, List.takeWhile_cons, hc, if_true]
      rw [ih fun d hd => h d (by simp [hd])]

theorem dropWhile_append_all {p : Char → Bool} (l r : List Char)
    (h : ∀ c ∈ l, p c = true) : (l ++ r).dropWhile p = r.dropWhile p := by
  induction l with
  | nil => rfl
  | cons c l ih =>
      have hc : p c = true := h c (by simp)
      simp only [List.cons_append, List.dropWhile_cons, hc, if_true]
      exact ih fun d hd => h d (by simp [hd])

theorem isDigit_ne {c : Char} (h : c.isDigit = true) (d : Char)
    (hd : d.isDigit = false) : c ≠ d := by
  intro he
  subst he
  rw [h] at hd
  cases hd

theorem isDigit_not_ws {c : Char} (h : c.isDigit = true) : isWsChar c = false := by
  have h1 : c ≠ ' ' := isDigit_ne h ' ' (by decide)
  have h2 : c ≠ '\t' := isDigit_ne h '\t' (by decide)
  have h3 : c ≠ '\n' := isDigit_ne h '\n' (by decide)
  have h4 : c ≠ '\r' := isDigit_ne h '\r' (by decide)
  simp [isWsChar, beq_eq_false_iff_ne, h1, h2, h3, h4]

theorem digitChar_isDigit {d : Nat} (h : d < 10) : (digitChar d).isDigit = true := by
  interval_cases d <;> decide

theorem digitVal_digitChar {d : Nat} (h : d < 10) : digitVal (digitChar d) = d := by
  interval_cases d <;> decide

theorem natToDigitsF_congr : ∀ n f g, n < f → n < g →
    natToDigitsF f n = natToDigitsF g n := by
  intro n
  induction n using Nat.strong_induction_on with
  | _ n ih =>
      intro f g hf hg
      match f, g with
      | f' + 1, g' + 1 =>
          simp only [natToDigitsF]
          by_cases h10 : n < 10
          · simp [h10]
          · have hdiv : n / 10 < n := Nat.div_lt_self (by omega) (by omega)
            rw [if_neg h10, if_neg h10,
              ih (n / 10) hdiv f' g' (by omega) (by omega)]

theorem natDigits_eq (n : Nat) : natDigits n =
    if n < 10 then [digitChar n]
    else natDigits (n / 10) ++ [digitChar (n % 10)] := by
  unfold natDigits
  conv_lhs => rw [natToDigitsF]
  by_cases h10 : n < 10
  · simp [h10]
  · rw [if_neg h10, if_neg h10,
      natToDigitsF_congr (n / 10) n (n / 10 + 1)
        (Nat.div_lt_self (by omega) (by omega)) (Nat.lt_succ_self _)]

theorem natDigits_ne_nil (n : Nat) : natDigits n ≠ [] := by
  rw [natDigits_eq]
  split <;> simp

theorem natDigits_all_digits : ∀ n, ∀ c ∈ natDigits n, c.isDigit = true := by
  intro n
  induction n using Nat.strong_induction_on with
  | _ n ih =>
      intro c hc
      rw [natDigits_eq] at hc
      by_cases h10 : n < 10
      · rw [if_pos h10] at hc
        simp at hc
        subst hc
        exact digitChar_isDigit h10
      · rw [if_neg h10] at hc
        rcases List.mem_append.1 hc with hmem | hmem
        · exact ih (n / 10) (Nat.div_lt_self (by omega) (by omega)) c hmem
        · simp at hmem
          subst hmem
          exact digitChar_isDigit (Nat.mod_lt _ (by omega))

theorem foldl_digitStep_natDigits : ∀ n a,
    (natDigits n).foldl digitStep a = a * 10 ^ (natDigits n).length + n := by
  intro n
  induction n using Nat.strong_induction_on with
  | _ n ih =>
      intro a
      rw [natDigits_eq]
      by_cases h10 : n < 10
      · rw [if_pos h10]
        simp only [List.foldl_cons, List.foldl_nil, digitStep,
          digitVal_digitChar h10, List.length_singleton]
        ring
      · rw [if_neg h10]
        have hdiv : n / 10 < n := Nat.div_lt_self (by omega) (by omega)
        have hmod : n % 10 < 10 := Nat.mod_lt n (by norm_num)
        rw [List.foldl_append, ih (n / 10) hdiv a]
        simp only [List.foldl_cons, List.foldl_nil, digitStep,
          digitVal_digitChar hmod, List.length_append, List.length_singleton]
        rw [pow_succ]
        have hsplit : 10 * (n / 10) + n % 10 = n := by omega
        calc 10 * (a * 10 ^ (natDigits (n / 10)).length + n / 10) + n % 10
            = a * (10 ^ (natDigits (n / 10)).length * 10) +
              (10 * (n / 10) + n % 10) := by ring
          _ = a * (10 ^ (natDigits (n / 10)).length * 10) + n := by rw [hsplit]

theorem digitsToNat_natDigits (n : Nat) : digitsToNat (natDigits n) = n := by
  unfold digitsToNat
  rw [foldl_digitStep_natDigits]
  simp

theorem foldl_digitStep_replicate_zero : ∀ k a,
    (List.replicate k '0').foldl digitStep a = a * 10 ^ k := by
  intro k
  induction k with
  | zero => intro a; simp
  | succ k ih =>
      intro a
      rw [List.replicate_succ]
      simp only [List.foldl_cons, digitStep]
      rw [show digitVal '0' = 0 from rfl, ih]
      ring

theorem digitsToNat_pad (k n : Nat) :
    digitsToNat (List.replicate k '0' ++ natDigits n) = n := by
  unfold digitsToNat
  rw [List.foldl_append, foldl_digitStep_replicate_zero, foldl_digitStep_natDigits]
  simp

/-! ## Round-trip support: numbers -/

theorem natDigits_head_ne_zero : ∀ n, 10 ≤ n → (natDigits n).head? ≠ some '0' := by
  intro n
  induction n using Nat.strong_induction_on with
  | _ n ih =>
      intro h10 hc
      rw [natDigits_eq, if_neg (by omega)] at hc
      obtain ⟨d, ds', hcons⟩ :=
        List.exists_cons_of_ne_nil (natDigits_ne_nil (n / 10))
      rw [hcons, List.cons_append, List.head?_cons, Option.some_inj] at hc
      by_cases hq : n / 10 < 10
      · have hq1 : 1 ≤ n / 10 := (Nat.le_div_iff_mul_le (by norm_num)).2 (by omega)
        rw [natDigits_eq, if_pos hq] at hcons
        injection hcons with h1 h2
        have hv := digitVal_digitChar hq
        rw [h1, hc] at hv
        rw [show digitVal '0' = 0 from rfl] at hv
        omega
      · exact ih (n / 10) (Nat.div_lt_self (by omega) (by omega)) (by omega)
          (by rw [hcons, List.head?_cons, hc])

theorem head_take_pos {α : Type} (l : List α) (k : Nat) (hk : 0 < k) :
    (l.take k).head? = l.head? := by
  cases l with
  | nil => simp
  | cons a l' =>
      obtain ⟨k', rfl⟩ : ∃ k', k = k' + 1 := ⟨k - 1, by omega⟩
      simp [List.take_succ_cons]

theorem numRepr_parts (m : Int) (e : Nat) :
    ∃ ip fp : List Char,
      numRepr m e =
        (if m < 0 then ['-'] else []) ++ ip ++ (if e = 0 then [] else '.' :: fp) ∧
      ip ≠ [] ∧ (∀ c ∈ ip, c.isDigit = true) ∧ (∀ c ∈ fp, c.isDigit = true) ∧
      fp.length = e ∧ digitsToNat (ip ++ fp) = m.natAbs ∧
      (2 ≤ ip.length → ip.head? ≠ some '0') := by
  have hd1 : natDigits m.natAbs ≠ [] := natDigits_ne_nil _
  have hdlen : 0 < (natDigits m.natAbs).length := List.length_pos.2 hd1
  have hall : ∀ c ∈ List.replicate (e + 1 - (natDigits m.natAbs).length) '0' ++
      natDigits m.natAbs, c.isDigit = true := by
    intro c hc
    rcases List.mem_append.1 hc with hc | hc
    · rw [List.eq_of_mem_replicate hc]
      decide
    · exact natDigits_all_digits _ c hc
  have hlen : (List.replicate (e + 1 - (natDigits m.natAbs).length) '0' ++
      natDigits m.natAbs).length =
      (e + 1 - (natDigits m.natAbs).length) + (natDigits m.natAbs).length := by
    simp
  refine ⟨_, _, rfl, ?_, ?_, ?_, ?_, ?_, ?_⟩
  · apply List.ne_nil_of_length_pos
    rw [List.length_take, hlen]
    omega
  · intro c hc
    exact hall c (List.take_subset _ _ hc)
  · intro c hc
    exact hall c (List.drop_subset _ _ hc)
  · rw [List.length_drop, hlen]
    omega
  · rw [List.take_append_drop]
    exact digitsToNat_pad _ _
  · intro h2
    rw [List.length_take, hlen] at h2
    have hds2 : e + 2 ≤ (natDigits m.natAbs).length := by omega
    have hn10 : 10 ≤ m.natAbs := by
      by_contra hlt
      push_neg at hlt
      rw [show natDigits m.natAbs = [digitChar m.natAbs] from
        by rw [natDigits_eq, if_pos hlt], List.length_singleton] at hds2
      omega
    have hgoal : List.replicate (e + 1 - (natDigits m.natAbs).length) '0' ++
        natDigits m.natAbs = natDigits m.natAbs := by
      rw [show e + 1 - (natDigits m.natAbs).length = 0 from by omega]
      simp
    rw [hgoal, head_take_pos (natDigits m.natAbs)
      ((natDigits m.natAbs).length - e) (by omega)]
    exact natDigits_head_ne_zero m.natAbs hn10

theorem delim_head_not_digit {rest : List Char} (h : Delim rest) :
    rest.takeWhile Char.isDigit = [] ∧ rest.dropWhile Char.isDigit = rest := by
  rcases h with rfl | ⟨c, r, rfl, hc⟩
  · exact ⟨rfl, rfl⟩
  · rcases hc with rfl | rfl | rfl <;> exact ⟨rfl, rfl⟩

theorem parseIntPart_all (ip rest : List Char) (hip : ip ≠ [])
    (hd : ∀ c ∈ ip, c.isDigit = true)
    (hlz : 2 ≤ ip.length → ip.head? ≠ some '0')
    (hr : rest.takeWhile Char.isDigit = [] ∧ rest.dropWhile Char.isDigit = rest) :
    parseIntPart (ip ++ rest) = some (ip, rest) := by
  obtain ⟨c, ip', rfl⟩ := List.exists_cons_of_ne_nil hip
  rw [List.cons_append]
  by_cases hc0 : c = '0'
  · subst hc0
    have hnil : ip' = [] := by
      cases ip' with
      | nil => rfl
      | cons d ds =>
          exact absurd rfl (hlz (by simp only [List.length_cons]; omega))
    subst hnil
    rfl
  · have hcd : c.isDigit = true := hd c (by simp)
    have hd' : ∀ x ∈ ip', x.isDigit = true := fun x hx => hd x (by simp [hx])
    simp only [parseIntPart]
    rw [if_neg hc0, if_pos hcd, takeWhile_append_all ip' rest hd',
      dropWhile_append_all ip' rest hd', hr.1, hr.2, List.append_nil]

theorem parseFracPart_delim {rest : List Char} (hr : Delim rest) :
    parseFracPart rest = ([], rest) := by
  rcases hr with rfl | ⟨c, r, rfl, hc⟩
  · rfl
  · rcases hc with rfl | rfl | rfl <;> rfl

theorem parseFracPart_frac (fp rest : List Char) (hfp : fp ≠ [])
    (hdf : ∀ c ∈ fp, c.isDigit = true)
    (hr : rest.takeWhile Char.isDigit = [] ∧ rest.dropWhile Char.isDigit = rest) :
    parseFracPart ('.' :: (fp ++ rest)) = (fp, rest) := by
  simp only [parseFracPart]
  rw [takeWhile_append_all fp rest hdf, dropWhile_append_all fp rest hdf,
    hr.1, hr.2, List.append_nil, if_neg hfp]

theorem parseExpPart_delim {rest : List Char} (hr : Delim rest) :
    parseExpPart rest = (0, rest) := by
  rcases hr with rfl | ⟨c, r, rfl, hc⟩
  · rfl
  · rcases hc with rfl | rfl | rfl <;> rfl

theorem mkNum_zero (m : Int) : mkNum m 0 = Json.num m 0 := by
  unfold mkNum
  rw [if_pos le_rfl]
  simp

theorem mkNum_negscale (m : Int) (e : Nat) (he : e ≠ 0) :
    mkNum m (-(e : Int)) = Json.num m e := by
  unfold mkNum
  rw [if_neg (by omega), neg_neg]
  simp

theorem parseUNum_int (ip rest : List Char) (hip : ip ≠ [])
    (hd : ∀ c ∈ ip, c.isDigit = true)
    (hlz : 2 ≤ ip.length → ip.head? ≠ some '0') (hr : Delim rest) :
    parseUNum (ip ++ rest) = some ((digitsToNat ip, 0), rest) := by
  unfold parseUNum
  rw [parseIntPart_all ip rest hip hd hlz (delim_head_not_digit hr)]
  change (match parseFracPart rest with
    | (fs, r2) =>
        match parseExpPart r2 with
        | (ex, r3) =>
            some ((digitsToNat (ip ++ fs), ex - (fs.length : Int)), r3)) =
    some ((digitsToNat ip, 0), rest)
  rw [parseFracPart_delim hr]
  change (match parseExpPart rest with
    | (ex, r3) =>
        some ((digitsToNat (ip ++ ([] : List Char)),
          ex - ((([] : List Char)).length : Int)), r3)) =
    some ((digitsToNat ip, 0), rest)
  rw [parseExpPart_delim hr]
  simp

theorem parseUNum_frac (ip fp rest : List Char) (hip : ip ≠ []) (hfp : fp ≠ [])
    (hdi : ∀ c ∈ ip, c.isDigit = true) (hdf : ∀ c ∈ fp, c.isDigit = true)
    (hlz : 2 ≤ ip.length → ip.head? ≠ some '0') (hr : Delim rest) :
    parseUNum (ip ++ '.' :: (fp ++ rest)) =
      some ((digitsToNat (ip ++ fp), -(fp.length : Int)), rest) := by
  unfold parseUNum
  rw [parseIntPart_all ip ('.' :: (fp ++ rest)) hip hdi hlz ⟨rfl, rfl⟩]
  change (match parseFracPart ('.' :: (fp ++ rest)) with
    | (fs, r2) =>
        match parseExpPart r2 with
        | (ex, r3) =>
            some ((digitsToNat (ip ++ fs), ex - (fs.length : Int)), r3)) =
    some ((digitsToNat (ip ++ fp), -(fp.length : Int)), rest)
  rw [parseFracPart_frac fp rest hfp hdf (delim_head_not_digit hr)]
  change (match parseExpPart rest with
    | (ex, r3) =>
        some ((digitsToNat (ip ++ fp), ex - ((fp.length : Nat) : Int)), r3)) =
    some ((digitsToNat (ip ++ fp), -(fp.length : Int)), rest)
  rw [parseExpPart_delim hr]
  simp

theorem parseNum_numRepr (m : Int) (e : Nat) (rest : List Char) (hr : Delim rest) :
    parseNum (numRepr m e ++ rest) = some (Json.num m e, rest) := by
  obtain ⟨ip, fp, hrepr, hip, hdi, hdf, hfl, hval, hlz⟩ := numRepr_parts m e
  by_cases he : e = 0
  · subst he
    have hfp0 : fp = [] := List.length_eq_zero.mp hfl
    subst hfp0
    rw [List.append_nil] at hval
    rw [hrepr, if_pos rfl, List.append_nil]
    by_cases hm : m < 0
    · rw [if_pos hm]
      have hshape : (['-'] ++ ip) ++ rest = '-' :: (ip ++ rest) := by simp
      rw [hshape]
      unfold parseNum
      simp only [List.head?_cons, List.tail_cons]
      rw [if_pos trivial, parseUNum_int ip rest hip hdi hlz hr]
      simp only [Option.map_some']
      rw [hval, mkNum_zero]
      have hneg : -(m.natAbs : Int) = m := by omega
      rw [hneg]
    · rw [if_neg hm, List.nil_append]
      obtain ⟨c, ip', rfl⟩ := List.exists_cons_of_ne_nil hip
      have hcdig : c.isDigit = true := hdi c (by simp)
      have hcne : c ≠ '-' := isDigit_ne hcdig '-' (by decide)
      rw [List.cons_append]
      unfold parseNum
      simp only [List.head?_cons]
      rw [if_neg (by simp [hcne]), ← List.cons_append,
        parseUNum_int _ rest hip hdi hlz hr]
      simp only [Option.map_some']
      rw [hval, mkNum_zero]
      have hpos : ((m.natAbs : Nat) : Int) = m := by omega
      rw [hpos]
  · have hfp : fp ≠ [] := by
      intro h0
      rw [h0] at hfl
      simp at hfl
      exact he hfl.symm
    rw [hrepr, if_neg he]
    by_cases hm : m < 0
    · rw [if_pos hm]
      have hshape : ((['-'] ++ ip ++ ('.' :: fp)) ++ rest) =
          '-' :: (ip ++ '.' :: (fp ++ rest)) := by simp
      rw [hshape]
      unfold parseNum
      simp only [List.head?_cons, List.tail_cons]
      rw [if_pos trivial, parseUNum_frac ip fp rest hip hfp hdi hdf hlz hr]
      simp only [Option.map_some']
      rw [hval, hfl, mkNum_negscale (-(m.natAbs : Int)) e he]
      have hneg : -(m.natAbs : Int) = m := by omega
      rw [hneg]
    · rw [if_neg hm, List.nil_append]
      obtain ⟨c, ip', rfl⟩ := List.exists_cons_of_ne_nil hip
      have hcdig : c.isDigit = true := hdi c (by simp)
      have hcne : c ≠ '-' := isDigit_ne hcdig '-' (by decide)
      have hshape : (((c :: ip') ++ ('.' :: fp)) ++ rest) =
          c :: (ip' ++ '.' :: (fp ++ rest)) := by simp
      rw [hshape]
      unfold parseNum
      simp only [List.head?_cons]
      rw [if_neg (by simp [hcne]),
        show c :: (ip' ++ '.' :: (fp ++ rest)) =
          (c :: ip') ++ '.' :: (fp ++ rest) from rfl,
        parseUNum_frac _ fp rest hip hfp hdi hdf hlz hr]
      simp only [Option.map_some']
      rw [hval, hfl, mkNum_negscale ((m.natAbs : Nat) : Int) e he]
      have hpos : ((m.natAbs : Nat) : Int) = m := by omega
      rw [hpos]

/-! ## Round-trip support: strings and token heads -/

theorem hexVal_hexDigitChar (v : Nat) (hv : v < 16) :
    hexVal (hexDigitChar v) = some v := by
  interval_cases v <;> decide

theorem parseStrS_short_escape (e c : Char) (he : unescChar e = some c)
    (hu : e ≠ 'u') (L : List Char) :
    parseStrS .norm ('\\' :: e :: L) =
      match parseStrS .norm L with
      | some (s, r) => some (c :: s, r)
      | none => none := by
  show (if e = 'u' then parseStrS (.uni 0 0) L
    else
      match unescChar e with
      | some c' =>
          match parseStrS .norm L with
          | some (s, r) => some (c' :: s, r)
          | none => none
      | none => none) = _
  rw [if_neg hu, he]

theorem parseStrS_uni_step (acc k v : Nat) (ch : Char)
    (hv : hexVal ch = some v) (hk : k ≠ 3) (L : List Char) :
    parseStrS (.uni acc k) (ch :: L) =
      parseStrS (.uni (16 * acc + v) (k + 1)) L := by
  simp only [parseStrS, hv]
  rw [if_neg hk]

theorem parseStrS_uni_done (acc v : Nat) (ch c : Char)
    (hv : hexVal ch = some v)
    (hc : 16 * acc + v = c.toNat) (hlow : c.toNat < 0xd800) (L : List Char) :
    parseStrS (.uni acc 3) (ch :: L) =
      match parseStrS .norm L with
      | some (s, r) => some (c :: s, r)
      | none => none := by
  simp only [parseStrS, hv]
  rw [if_pos trivial, if_neg (by omega), if_neg (by omega)]
  simp only [hc, Char.ofNat_toNat]

theorem parseStrS_u_escape (c : Char) (hc : c.toNat < 32) (L : List Char) :
    parseStrS .norm ('\\' :: 'u' :: '0' :: '0' ::
        hexDigitChar (c.toNat / 16) :: hexDigitChar (c.toNat % 16) :: L) =
      match parseStrS .norm L with
      | some (s, r) => some (c :: s, r)
      | none => none := by
  have h1 : c.toNat / 16 < 16 := by omega
  have h2 : c.toNat % 16 < 16 := Nat.mod_lt _ (by norm_num)
  rw [show parseStrS .norm ('\\' :: 'u' :: '0' :: '0' ::
        hexDigitChar (c.toNat / 16) :: hexDigitChar (c.toNat % 16) :: L) =
      parseStrS (.uni (16 * (16 * 0 + 0) + 0) (0 + 1 + 1))
        (hexDigitChar (c.toNat / 16) :: hexDigitChar (c.toNat % 16) :: L)
      from rfl,
    parseStrS_uni_step _ _ _ _ (hexVal_hexDigitChar _ h1) (by omega) _,
    show (0 + 1 + 1 + 1 : Nat) = 3 from rfl,
    parseStrS_uni_done _ _ _ c (hexVal_hexDigitChar _ h2) (by omega) (by omega) L]

theorem parseStrBody_escape (s rest : List Char) :
    parseStrBody (escapeStr s ++ '"' :: rest) = some (s, rest) := by
  induction s with
  | nil => rfl
  | cons c cs ih =>
      have ih' : parseStrS .norm (escapeStr cs ++ '"' :: rest) =
        some (cs, rest) := ih
      by_cases hq : c = '"' ∨ c = '\\'
      · have hesc : escChar c = ['\\', c] := by rw [escChar, if_pos hq]
        rw [escapeStr, hesc,
          show (['\\', c] ++ escapeStr cs) ++ '"' :: rest =
            '\\' :: c :: (escapeStr cs ++ '"' :: rest) from by simp]
        show parseStrS .norm ('\\' :: c :: (escapeStr cs ++ '"' :: rest)) =
          some (c :: cs, rest)
        rcases hq with rfl | rfl
        · rw [parseStrS_short_escape '"' '"' rfl (by decide) _, ih']
        · rw [parseStrS_short_escape '\\' '\\' rfl (by decide) _, ih']
      · push_neg at hq
        by_cases h32 : c.toNat < 32
        · by_cases hn : c = '\n'
          · subst hn
            rw [escapeStr, show escChar '\n' = ['\\', 'n'] from by decide,
              show (['\\', 'n'] ++ escapeStr cs) ++ '"' :: rest =
                '\\' :: 'n' :: (escapeStr cs ++ '"' :: rest) from by simp]
            show parseStrS .norm ('\\' :: 'n' :: (escapeStr cs ++ '"' :: rest)) =
              some ('\n' :: cs, rest)
            rw [parseStrS_short_escape 'n' '\n' rfl (by decide) _, ih']
          · by_cases ht : c = '\t'
            · subst ht
              rw [escapeStr, show escChar '\t' = ['\\', 't'] from by decide,
                show (['\\', 't'] ++ escapeStr cs) ++ '"' :: rest =
                  '\\' :: 't' :: (escapeStr cs ++ '"' :: rest) from by simp]
              show parseStrS .norm
                ('\\' :: 't' :: (escapeStr cs ++ '"' :: rest)) =
                some ('\t' :: cs, rest)
              rw [parseStrS_short_escape 't' '\t' rfl (by decide) _, ih']
            · by_cases hcr : c = '\r'
              · subst hcr
                rw [escapeStr, show escChar '\r' = ['\\', 'r'] from by decide,
                  show (['\\', 'r'] ++ escapeStr cs) ++ '"' :: rest =
                    '\\' :: 'r' :: (escapeStr cs ++ '"' :: rest) from by simp]
                show parseStrS .norm
                  ('\\' :: 'r' :: (escapeStr cs ++ '"' :: rest)) =
                  some ('\r' :: cs, rest)
                rw [parseStrS_short_escape 'r' '\r' rfl (by decide) _, ih']
              · by_cases hb : c = '\x08'
                · subst hb
                  rw [escapeStr, show escChar '\x08' = ['\\', 'b'] from by decide,
                    show (['\\', 'b'] ++ escapeStr cs) ++ '"' :: rest =
                      '\\' :: 'b' :: (escapeStr cs ++ '"' :: rest) from by simp]
                  show parseStrS .norm
                    ('\\' :: 'b' :: (escapeStr cs ++ '"' :: rest)) =
                    some ('\x08' :: cs, rest)
                  rw [parseStrS_short_escape 'b' '\x08' rfl (by decide) _, ih']
                · by_cases hf : c = '\x0c'
                  · subst hf
                    rw [escapeStr,
                      show escChar '\x0c' = ['\\', 'f'] from by decide,
                      show (['\\', 'f'] ++ escapeStr cs) ++ '"' :: rest =
                        '\\' :: 'f' :: (escapeStr cs ++ '"' :: rest) from by simp]
                    show parseStrS .norm
                      ('\\' :: 'f' :: (escapeStr cs ++ '"' :: rest)) =
                      some ('\x0c' :: cs, rest)
                    rw [parseStrS_short_escape 'f' '\x0c' rfl (by decide) _, ih']
                  · have hesc : escChar c = ['\\', 'u', '0', '0',
                        hexDigitChar (c.toNat / 16), hexDigitChar (c.toNat % 16)] := by
                      rw [escChar, if_neg (by tauto), if_neg hn, if_neg ht,
                        if_neg hcr, if_neg hb, if_neg hf, if_pos h32]
                    rw [escapeStr, hesc,
                      show (['\\', 'u', '0', '0', hexDigitChar (c.toNat / 16),
                          hexDigitChar (c.toNat % 16)] ++ escapeStr cs) ++
                          '"' :: rest =
                        '\\' :: 'u' :: '0' :: '0' :: hexDigitChar (c.toNat / 16) ::
                          hexDigitChar (c.toNat % 16) ::
                          (escapeStr cs ++ '"' :: rest) from by simp]
                    show parseStrS .norm ('\\' :: 'u' :: '0' :: '0' ::
                      hexDigitChar (c.toNat / 16) :: hexDigitChar (c.toNat % 16) ::
                      (escapeStr cs ++ '"' :: rest)) = some (c :: cs, rest)
                    rw [parseStrS_u_escape c h32 _, ih']
        · have hne : ∀ d : Char, d.toNat < 32 → c ≠ d := by
            intro d hd he
            exact h32 (by rw [he]; exact hd)
          have hesc : escChar c = [c] := by
            rw [escChar, if_neg (by tauto), if_neg (hne '\n' (by decide)),
              if_neg (hne '\t' (by decide)), if_neg (hne '\r' (by decide)),
              if_neg (hne '\x08' (by decide)), if_neg (hne '\x0c' (by decide)),
              if_neg h32]
          rw [escapeStr, hesc,
            show ([c] ++ escapeStr cs) ++ '"' :: rest =
              c :: (escapeStr cs ++ '"' :: rest) from by simp]
          rw [show parseStrBody (c :: (escapeStr cs ++ '"' :: rest)) =
            (if c = '"' then some ([], escapeStr cs ++ '"' :: rest)
             else if c = '\\' then parseStrS .esc (escapeStr cs ++ '"' :: rest)
             else if c.toNat < 32 then none
             else match parseStrS .norm (escapeStr cs ++ '"' :: rest) with
               | some (s, r) => some (c :: s, r)
               | none => none) from rfl,
            if_neg hq.1, if_neg hq.2, if_neg h32, ih']

theorem skipWs_cons {c : Char} (h : isWsChar c = false) (l : List Char) :
    skipWs (c :: l) = c :: l := by
  simp [skipWs, List.dropWhile_cons, h]

theorem numRepr_head (m : Int) (e : Nat) :
    ∃ c l, numRepr m e = c :: l ∧ (c = '-' ∨ c.isDigit = true) := by
  obtain ⟨ip, fp, hrepr, hip, hdi, -, -, -⟩ := numRepr_parts m e
  by_cases hm : m < 0
  · exact ⟨'-', ip ++ (if e = 0 then [] else '.' :: fp),
      by rw [hrepr, if_pos hm]; simp, Or.inl rfl⟩
  · obtain ⟨c, ip', rfl⟩ := List.exists_cons_of_ne_nil hip
    exact ⟨c, ip' ++ (if e = 0 then [] else '.' :: fp),
      by rw [hrepr, if_neg hm]; simp, Or.inr (hdi c (by simp))⟩

theorem serialize_head (p : Json) : ∃ c l, serialize p = c :: l ∧
    isWsChar c = false ∧ c ≠ ']' ∧ c ≠ '}' := by
  cases p with
  | null =>
      exact ⟨'n', ['u', 'l', 'l'], by simp [serialize], by decide, by decide, by decide⟩
  | bool b =>
      cases b with
      | true =>
          exact ⟨'t', ['r', 'u', 'e'], by simp [serialize], by decide, by decide,
            by decide⟩
      | false =>
          exact ⟨'f', ['a', 'l', 's', 'e'], by simp [serialize], by decide, by decide,
            by decide⟩
  | num m e =>
      obtain ⟨c, l, hrw, hc⟩ := numRepr_head m e
      refine ⟨c, l, by simp only [serialize]; exact hrw, ?_, ?_, ?_⟩
      · rcases hc with rfl | hd
        · decide
        · exact isDigit_not_ws hd
      · rcases hc with rfl | hd
        · decide
        · exact isDigit_ne hd ']' (by decide)
      · rcases hc with rfl | hd
        · decide
        · exact isDigit_ne hd '}' (by decide)
  | str s =>
      exact ⟨'"', escapeStr s ++ ['"'], by simp [serialize], by decide, by decide,
        by decide⟩
  | arr xs =>
      exact ⟨'[', serializeItems xs ++ [']'], by simp [serialize], by decide,
        by decide, by decide⟩
  | obj kvs =>
      exact ⟨'{', serializeFields kvs ++ ['}'], by simp [serialize], by decide,
        by decide, by decide⟩

theorem skipWs_serialize (p : Json) (r : List Char) :
    skipWs (serialize p ++ r) = serialize p ++ r := by
  obtain ⟨c, l, hp, hws, -, -⟩ := serialize_head p
  rw [hp, List.cons_append, skipWs_cons hws]

theorem serializeItems_cons (v : Json) (vs : List Json) :
    serializeItems (v :: vs) = serialize v ++
      (match vs with
       | [] => []
       | _ :: _ => ',' :: serializeItems vs) := by
  cases vs <;> simp [serializeItems]

theorem serializeFields_cons (k : List Char) (v : Json)
    (kvs : List (List Char × Json)) :
    serializeFields ((k, v) :: kvs) = '"' :: (escapeStr k ++
      '"' :: ':' :: (serialize v ++
        (match kvs with
         | [] => []
         | _ :: _ => ',' :: serializeFields kvs))) := by
  cases kvs <;> simp [serializeFields]

theorem parseVal_num_dispatch (f : Nat) (c : Char) (T : List Char)
    (hc : c = '-' ∨ c.isDigit = true) :
    parseVal (f + 1) (c :: T) = parseNum (c :: T) := by
  rcases hc with rfl | hdig
  · rfl
  · have hws : isWsChar c = false := isDigit_not_ws hdig
    have h1 : c ≠ '{' := isDigit_ne hdig '{' (by decide)
    have h2 : c ≠ '[' := isDigit_ne hdig '[' (by decide)
    have h3 : c ≠ '"' := isDigit_ne hdig '"' (by decide)
    have h4 : c ≠ 't' := isDigit_ne hdig 't' (by decide)
    have h5 : c ≠ 'f' := isDigit_ne hdig 'f' (by decide)
    have h6 : c ≠ 'n' := isDigit_ne hdig 'n' (by decide)
    simp only [parseVal]
    rw [skipWs_cons hws]
    simp only [if_neg h1, if_neg h2, if_neg h3, if_neg h4, if_neg h5, if_neg h6,
      if_pos (Or.inr hdig)]

theorem parseVal_arr_dispatch (f : Nat) (c : Char) (X : List Char)
    (hws : isWsChar c = false) (hc : c ≠ ']') :
    parseVal (f + 1) ('[' :: (c :: X)) =
      (match parseItems f (c :: X) with
       | some (vs, r) => some (Json.arr vs, r)
       | none => none) := by
  rw [show parseVal (f + 1) ('[' :: (c :: X)) =
    (match skipWs (c :: X) with
     | ']' :: r => some (Json.arr [], r)
     | cs' =>
         match parseItems f cs' with
         | some (vs, r) => some (Json.arr vs, r)
         | none => none) from rfl,
    skipWs_cons hws]
  split
  · next r heq => exact absurd (List.cons.inj heq).1 hc
  · next cs' heq => rfl

theorem parseVal_obj_dispatch (f : Nat) (c : Char) (X : List Char)
    (hws : isWsChar c = false) (hc : c ≠ '}') :
    parseVal (f + 1) ('{' :: (c :: X)) =
      (match parseFields f (c :: X) with
       | some (kvs, r) => some (Json.obj kvs, r)
       | none => none) := by
  rw [show parseVal (f + 1) ('{' :: (c :: X)) =
    (match skipWs (c :: X) with
     | '}' :: r => some (Json.obj [], r)
     | cs' =>
         match parseFields f cs' with
         | some (kvs, r) => some (Json.obj kvs, r)
         | none => none) from rfl,
    skipWs_cons hws]
  split
  · next r heq => exact absurd (List.cons.inj heq).1 hc
  · next cs' heq => rfl

theorem skipWs_serializeItems (v : Json) (vs : List Json) (r : List Char) :
    skipWs (serializeItems (v :: vs) ++ r) = serializeItems (v :: vs) ++ r := by
  rw [serializeItems_cons, List.append_assoc, skipWs_serialize, ← List.append_assoc]

theorem skipWs_serializeFields (k : List Char) (v : Json)
    (kvs : List (List Char × Json)) (r : List Char) :
    skipWs (serializeFields ((k, v) :: kvs) ++ r) =
      serializeFields ((k, v) :: kvs) ++ r := by
  rw [serializeFields_cons, List.cons_append, skipWs_cons (by decide)]

theorem jfuel_pos (p : Json) : 1 ≤ jfuel p := by
  cases p <;> simp [jfuel]

/-- The parser inverts the serializer: with enough fuel, a serialized
value followed by a delimiter parses back to exactly that value. -/
theorem parse_serialize_fuel : ∀ f : Nat,
    (∀ p rest, jfuel p ≤ f → Delim rest →
      parseVal f (serialize p ++ rest) = some (p, rest)) ∧
    (∀ vs rest, vs ≠ [] → jfuelItems vs ≤ f → Delim rest →
      parseItems f (serializeItems vs ++ ']' :: rest) = some (vs, rest)) ∧
    (∀ kvs rest, kvs ≠ [] → jfuelFields kvs ≤ f → Delim rest →
      parseFields f (serializeFields kvs ++ '}' :: rest) = some (kvs, rest)) := by
  intro f
  induction f with
  | zero =>
      refine ⟨fun p rest hf _ => absurd hf (by have := jfuel_pos p; omega),
        fun vs rest hne hf _ => ?_, fun kvs rest hne hf _ => ?_⟩
      · obtain ⟨v, vs', rfl⟩ := List.exists_cons_of_ne_nil hne
        simp only [jfuelItems] at hf
        omega
      · obtain ⟨⟨k, v⟩, kvs', rfl⟩ := List.exists_cons_of_ne_nil hne
        simp only [jfuelFields] at hf
        omega
  | succ f ih =>
      obtain ⟨ihVal, ihItems, ihFields⟩ := ih
      refine ⟨?_, ?_, ?_⟩
      · intro p rest hf hrest
        cases p with
        | null =>
            rw [show serialize Json.null = ['n', 'u', 'l', 'l'] from by simp [serialize]]
            rfl
        | bool b =>
            cases b
            · rw [show serialize (Json.bool false) = ['f', 'a', 'l', 's', 'e'] from by
                simp [serialize]]
              rfl
            · rw [show serialize (Json.bool true) = ['t', 'r', 'u', 'e'] from by
                simp [serialize]]
              rfl
        | num m e =>
            obtain ⟨c, l, hrw, hc⟩ := numRepr_head m e
            rw [show serialize (Json.num m e) = numRepr m e from by simp [serialize],
              hrw, List.cons_append, parseVal_num_dispatch f c _ hc,
              ← List.cons_append, ← hrw, parseNum_numRepr m e rest hrest]
        | str s =>
            rw [show serialize (Json.str s) = '"' :: (escapeStr s ++ ['"']) from by
              simp [serialize],
              List.cons_append,
              show (escapeStr s ++ ['"']) ++ rest = escapeStr s ++ '"' :: rest from by
                simp,
              show parseVal (f + 1) ('"' :: (escapeStr s ++ '"' :: rest)) =
                (match parseStrBody (escapeStr s ++ '"' :: rest) with
                 | some (s, r) => some (Json.str s, r)
                 | none => none) from rfl,
              parseStrBody_escape]
        | arr xs =>
            cases xs with
            | nil =>
                rw [show serialize (Json.arr []) = ['[', ']'] from by
                  simp [serialize, serializeItems]]
                rfl
            | cons v vs =>
                obtain ⟨c, l, hsv, hws, hne1, hne2⟩ := serialize_head v
                have hfl : jfuelItems (v :: vs) ≤ f := by
                  simp only [jfuel] at hf
                  omega
                have hshape : serialize (Json.arr (v :: vs)) ++ rest =
                    '[' :: (serializeItems (v :: vs) ++ ']' :: rest) := by
                  simp [serialize]
                rw [hshape]
                cases vs with
                | nil =>
                    have hhead : serializeItems [v] ++ ']' :: rest =
                        c :: (l ++ ']' :: rest) := by
                      rw [show serializeItems [v] = serialize v from by
                        simp [serializeItems], hsv, List.cons_append]
                    rw [hhead, parseVal_arr_dispatch f c _ hws hne1, ← hhead,
                      ihItems [v] rest (by simp) hfl hrest]
                | cons w ws =>
                    have hhead : serializeItems (v :: w :: ws) ++ ']' :: rest =
                        c :: ((l ++ ',' :: serializeItems (w :: ws)) ++ ']' :: rest) := by
                      rw [serializeItems_cons, hsv]
                      simp
                    rw [hhead, parseVal_arr_dispatch f c _ hws hne1, ← hhead,
                      ihItems (v :: w :: ws) rest (by simp) hfl hrest]
        | obj kvs0 =>
            cases kvs0 with
            | nil =>
                rw [show serialize (Json.obj []) = ['{', '}'] from by
                  simp [serialize, serializeFields]]
                rfl
            | cons kv kvs =>
                obtain ⟨k, v⟩ := kv
                have hfl : jfuelFields ((k, v) :: kvs) ≤ f := by
                  simp only [jfuel] at hf
                  omega
                have hshape : serialize (Json.obj ((k, v) :: kvs)) ++ rest =
                    '{' :: (serializeFields ((k, v) :: kvs) ++ '}' :: rest) := by
                  simp [serialize]
                rw [hshape]
                cases kvs with
                | nil =>
                    have hhead : serializeFields [(k, v)] ++ '}' :: rest =
                        '"' :: ((escapeStr k ++ '"' :: ':' :: serialize v) ++
                          '}' :: rest) := by
                      rw [serializeFields_cons]
                      simp
                    rw [hhead, parseVal_obj_dispatch f '"' _ (by decide) (by decide),
                      ← hhead, ihFields [(k, v)] rest (by simp) hfl hrest]
                | cons kv2 kvs2 =>
                    have hhead : serializeFields ((k, v) :: kv2 :: kvs2) ++ '}' :: rest =
                        '"' :: ((escapeStr k ++ '"' :: ':' :: (serialize v ++
                          ',' :: serializeFields (kv2 :: kvs2))) ++ '}' :: rest) := by
                      rw [serializeFields_cons]
                      simp
                    rw [hhead, parseVal_obj_dispatch f '"' _ (by decide) (by decide),
                      ← hhead, ihFields ((k, v) :: kv2 :: kvs2) rest (by simp) hfl hrest]
      · intro vs rest hne hfl hrest
        obtain ⟨v, vs', rfl⟩ := List.exists_cons_of_ne_nil hne
        have hfv : jfuel v ≤ f := by
          simp only [jfuelItems] at hfl
          omega
        rw [show parseItems (f + 1) (serializeItems (v :: vs') ++ ']' :: rest) =
          (match parseVal f (serializeItems (v :: vs') ++ ']' :: rest) with
           | some (v, r1) =>
               match skipWs r1 with
               | ',' :: r2 =>
                   match parseItems f (skipWs r2) with
                   | some (vs, r3) => some (v :: vs, r3)
                   | none => none
               | ']' :: r2 => some ([v], r2)
               | _ => none
           | none => none) from rfl]
        cases vs' with
        | nil =>
            rw [show serializeItems [v] ++ ']' :: rest = serialize v ++ ']' :: rest from by
              simp [serializeItems],
              ihVal v (']' :: rest) hfv (Or.inr ⟨']', rest, rfl, Or.inr (Or.inr rfl)⟩)]
            rfl
        | cons w ws =>
            have hfw : jfuelItems (w :: ws) ≤ f := by
              simp only [jfuelItems] at hfl ⊢
              omega
            rw [show serializeItems (v :: w :: ws) ++ ']' :: rest =
              serialize v ++ (',' :: (serializeItems (w :: ws) ++ ']' :: rest)) from by
              rw [serializeItems_cons]
              simp,
              ihVal v (',' :: (serializeItems (w :: ws) ++ ']' :: rest)) hfv
                (Or.inr ⟨',', _, rfl, Or.inl rfl⟩)]
            change (match parseItems f (skipWs (serializeItems (w :: ws) ++
                ']' :: rest)) with
              | some (vs, r3) => some (v :: vs, r3)
              | none => none) = some (v :: w :: ws, rest)
            rw [skipWs_serializeItems w ws (']' :: rest),
              ihItems (w :: ws) rest (by simp) hfw hrest]
      · intro kvs rest hne hfl hrest
        obtain ⟨⟨k, v⟩, kvs', rfl⟩ := List.exists_cons_of_ne_nil hne
        have hfv : jfuel v ≤ f := by
          simp only [jfuelFields] at hfl
          omega
        cases kvs' with
        | nil =>
            rw [show serializeFields [(k, v)] ++ '}' :: rest =
              '"' :: (escapeStr k ++ '"' :: (':' :: (serialize v ++ '}' :: rest))) from by
              rw [serializeFields_cons]
              simp,
              show parseFields (f + 1)
                ('"' :: (escapeStr k ++ '"' :: (':' :: (serialize v ++ '}' :: rest)))) =
              (match parseStrBody (escapeStr k ++ '"' ::
                  (':' :: (serialize v ++ '}' :: rest))) with
               | some (kk, r1) =>
                   match skipWs r1 with
                   | ':' :: r2 =>
                       match parseVal f (skipWs r2) with
                       | some (vv, r3) =>
                           match skipWs r3 with
                           | ',' :: r4 =>
                               match parseFields f (skipWs r4) with
                               | some (kvs2, r5) => some ((kk, vv) :: kvs2, r5)
                               | none => none
                           | '}' :: r4 => some ([(kk, vv)], r4)
                           | _ => none
                       | none => none
                   | _ => none
               | none => none) from rfl,
              parseStrBody_escape]
            change (match parseVal f (skipWs (serialize v ++ '}' :: rest)) with
              | some (vv, r3) =>
                  match skipWs r3 with
                  | ',' :: r4 =>
                      match parseFields f (skipWs r4) with
                      | some (kvs2, r5) => some ((k, vv) :: kvs2, r5)
                      | none => none
                  | '}' :: r4 => some ([(k, vv)], r4)
                  | _ => none
              | none => none) = some ([(k, v)], rest)
            rw [skipWs_serialize v ('}' :: rest),
              ihVal v ('}' :: rest) hfv (Or.inr ⟨'}', rest, rfl, Or.inr (Or.inl rfl)⟩)]
            rfl
        | cons kv2 kvs2 =>
            have hfw : jfuelFields (kv2 :: kvs2) ≤ f := by
              simp only [jfuelFields] at hfl ⊢
              omega
            rw [show serializeFields ((k, v) :: kv2 :: kvs2) ++ '}' :: rest =
              '"' :: (escapeStr k ++ '"' :: (':' :: (serialize v ++
                ',' :: (serializeFields (kv2 :: kvs2) ++ '}' :: rest)))) from by
              rw [serializeFields_cons]
              simp,
              show parseFields (f + 1)
                ('"' :: (escapeStr k ++ '"' :: (':' :: (serialize v ++
                  ',' :: (serializeFields (kv2 :: kvs2) ++ '}' :: rest))))) =
              (match parseStrBody (escapeStr k ++ '"' :: (':' :: (serialize v ++
                  ',' :: (serializeFields (kv2 :: kvs2) ++ '}' :: rest)))) with
               | some (kk, r1) =>
                   match skipWs r1 with
                   | ':' :: r2 =>
                       match parseVal f (skipWs r2) with
                       | some (vv, r3) =>
                           match skipWs r3 with
                           | ',' :: r4 =>
                               match parseFields f (skipWs r4) with
                               | some (kvs3, r5) => some ((kk, vv) :: kvs3, r5)
                               | none => none
                           | '}' :: r4 => some ([(kk, vv)], r4)
                           | _ => none
                       | none => none
                   | _ => none
               | none => none) from rfl,
              parseStrBody_escape]
            change (match parseVal f (skipWs (serialize v ++
                ',' :: (serializeFields (kv2 :: kvs2) ++ '}' :: rest))) with
              | some (vv, r3) =>
                  match skipWs r3 with
                  | ',' :: r4 =>
                      match parseFields f (skipWs r4) with
                      | some (kvs3, r5) => some ((k, vv) :: kvs3, r5)
                      | none => none
                  | '}' :: r4 => some ([(k, vv)], r4)
                  | _ => none
              | none => none) = some ((k, v) :: kv2 :: kvs2, rest)
            rw [skipWs_serialize v (',' :: (serializeFields (kv2 :: kvs2) ++ '}' :: rest)),
              ihVal v (',' :: (serializeFields (kv2 :: kvs2) ++ '}' :: rest)) hfv
                (Or.inr ⟨',', _, rfl, Or.inl rfl⟩)]
            change (match parseFields f (skipWs (serializeFields (kv2 :: kvs2) ++
                '}' :: rest)) with
              | some (kvs3, r5) => some ((k, v) :: kvs3, r5)
              | none => none) = some ((k, v) :: kv2 :: kvs2, rest)
            obtain ⟨k2, v2⟩ := kv2
            rw [skipWs_serializeFields k2 v2 kvs2 ('}' :: rest),
              ihFields ((k2, v2) :: kvs2) rest (by simp) hfw hrest]

theorem jfuelItems_bound (vs : List Json)
    (h : ∀ v ∈ vs, jfuel v ≤ (serialize v).length) :
    jfuelItems vs ≤ (serializeItems vs).length + 1 := by
  induction vs with
  | nil => simp [jfuelItems, serializeItems]
  | cons v vs ih =>
      have hv := h v (by simp)
      cases vs with
      | nil =>
          simp only [jfuelItems, serializeItems]
          omega
      | cons w ws =>
          have hrec := ih (fun x hx => h x (by simp [hx]))
          simp only [jfuelItems] at hrec ⊢
          simp only [serializeItems, List.length_append, List.length_cons]
          omega

theorem jfuelFields_bound (kvs : List (List Char × Json))
    (h : ∀ kv ∈ kvs, jfuel kv.2 ≤ (serialize kv.2).length) :
    jfuelFields kvs ≤ (serializeFields kvs).length + 1 := by
  induction kvs with
  | nil => simp [jfuelFields, serializeFields]
  | cons kv kvs ih =>
      obtain ⟨k, v⟩ := kv
      have hv : jfuel v ≤ (serialize v).length := h (k, v) (by simp)
      cases kvs with
      | nil =>
          simp only [jfuelFields, serializeFields]
          simp only [List.length_cons, List.length_append]
          omega
      | cons kv2 kvs2 =>
          have hrec := ih (fun x hx => h x (by simp [hx]))
          simp only [jfuelFields] at hrec ⊢
          simp only [serializeFields, List.length_cons, List.length_append]
          omega

theorem jfuel_serialize_bound (p : Json) : jfuel p ≤ (serialize p).length := by
  suffices h : ∀ n (p : Json), sizeOf p ≤ n → jfuel p ≤ (serialize p).length from
    h (sizeOf p) p le_rfl
  intro n
  induction n using Nat.strong_induction_on with
  | _ n ih =>
      intro p hp
      cases p with
      | null => simp [jfuel, serialize]
      | bool b => cases b <;> simp [jfuel, serialize]
      | num m e =>
          obtain ⟨c, l, hrw, -⟩ := numRepr_head m e
          simp [jfuel, serialize, hrw]
      | str s => simp [jfuel, serialize]
      | arr xs =>
          have hmem : ∀ v ∈ xs, jfuel v ≤ (serialize v).length := by
            intro v hv
            have h1 : sizeOf v < sizeOf xs := List.sizeOf_lt_of_mem hv
            have h2 : sizeOf (Json.arr xs) = 1 + sizeOf xs := by simp
            exact ih (sizeOf v) (by omega) v le_rfl
          have hb := jfuelItems_bound xs hmem
          simp only [jfuel, serialize, List.length_cons, List.length_append,
            List.length_singleton]
          omega
      | obj kvs =>
          have hmem : ∀ kv ∈ kvs, jfuel kv.2 ≤ (serialize kv.2).length := by
            intro kv hv
            have h1 : sizeOf kv < sizeOf kvs := List.sizeOf_lt_of_mem hv
            obtain ⟨k, v⟩ := kv
            have h2 : sizeOf (Json.obj kvs) = 1 + sizeOf kvs := by simp
            have h3 : sizeOf ((k, v) : List Char × Json) = 1 + sizeOf k + sizeOf v := by
              simp
            exact ih (sizeOf v) (by omega) v le_rfl
          have hb := jfuelFields_bound kvs hmem
          simp only [jfuel, serialize, List.length_cons, List.length_append,
            List.length_singleton]
          omega

/-- `json.loads` inverts the canonical serialization. -/
theorem jparse_serialize (p : Json) : jparse (serialize p) = some p := by
  have hb := jfuel_serialize_bound p
  have h := (parse_serialize_fuel ((serialize p).length + 1)).1 p [] (by omega)
    (Or.inl rfl)
  rw [List.append_nil] at h
  unfold jparse
  rw [h]
  rfl

/-! ## Extraction contract support -/

theorem pyStrip_sandwich (a : Char) (mid : List Char) (b : Char)
    (ha : isPyWs a = false) (hb : isPyWs b = false) :
    pyStrip (a :: (mid ++ [b])) = a :: (mid ++ [b]) := by
  unfold pyStrip
  rw [List.dropWhile_cons, if_neg (by simp [ha]),
    show (a :: (mid ++ [b])).reverse = b :: (mid.reverse ++ [a]) from by simp,
    List.dropWhile_cons, if_neg (by simp [hb]),
    show (b :: (mid.reverse ++ [a])).reverse = a :: (mid ++ [b]) from by simp]

/-- `_extract_twist` on a flat response `{"content": v}` reduces to the
content scan of `v`. -/
theorem extract_flat (v : Json) :
    extractTwist (Json.obj [(contentKey, v)]) = scanContent v := rfl

theorem scanContent_str (s : List Char) :
    scanContent (Json.str s) =
      (match findChar '{' (pyStrip s), rfindChar '}' (pyStrip s) with
       | some st, some en =>
           match jparse (pySlice (pyStrip s) st (en + 1)) with
           | some j => Except.ok j
           | none => Except.error (PyErr.valueError
               ("Failed to parse JSON from LLM response: ".toList ++ pyStrip s))
       | _, _ => Except.error (PyErr.valueError
           "LLM response does not contain JSON content".toList)) := rfl

theorem scanContent_str_some (s : List Char) (st en : Nat)
    (h1 : findChar '{' (pyStrip s) = some st)
    (h2 : rfindChar '}' (pyStrip s) = some en) :
    scanContent (Json.str s) =
      (match jparse (pySlice (pyStrip s) st (en + 1)) with
       | some j => Except.ok j
       | none => Except.error (PyErr.valueError
           ("Failed to parse JSON from LLM response: ".toList ++ pyStrip s))) := by
  rw [scanContent_str, h1, h2]

theorem scanContent_str_none (s : List Char)
    (h : findChar '{' (pyStrip s) = none ∨ rfindChar '}' (pyStrip s) = none) :
    scanContent (Json.str s) = Except.error (PyErr.valueError
      "LLM response does not contain JSON content".toList) := by
  rw [scanContent_str]
  rcases h with h | h
  · rw [h]
  · cases h1 : findChar '{' (pyStrip s) with
    | none => rfl
    | some st => rw [h]

/-- C6: (round-trip) `_extract_twist` applied to a response whose textual
content is the JSON text of a payload object returns exactly that
object; (failure characterization) for textual content, it fails with
the diagnostic `ValueError` — the spec's `MalformedResponse` — precisely
when the stripped text lacks a `{`, lacks a `}`, or the span from the
first `{` to the last `}` does not parse as JSON; (fast path) a content
field that is already a structured object is returned directly. -/
theorem extract_contract :
    (∀ kvs : List (List Char × Json),
      extractTwist (Json.obj [(contentKey,
        Json.str (serialize (Json.obj kvs)))]) = .ok (Json.obj kvs)) ∧
    (∀ s : List Char,
      ((∃ m, extractTwist (Json.obj [(contentKey, Json.str s)]) =
          .error (.valueError m)) ↔
        (findChar '{' (pyStrip s) = none ∨ rfindChar '}' (pyStrip s) = none ∨
          jparse (braceSlice (pyStrip s)) = none))) ∧
    (∀ r kvs, locateContent r = .ok (Json.obj kvs) →
      extractTwist r = .ok (Json.obj kvs)) := by
  refine ⟨?_, ?_, ?_⟩
  · intro kvs
    rw [extract_flat]
    have hser : serialize (Json.obj kvs) = '{' :: (serializeFields kvs ++ ['}']) := by
      simp [serialize]
    have hstrip : pyStrip (serialize (Json.obj kvs)) = serialize (Json.obj kvs) := by
      rw [hser]
      exact pyStrip_sandwich '{' (serializeFields kvs) '}' (by decide) (by decide)
    have h1 : findChar '{' (pyStrip (serialize (Json.obj kvs))) = some 0 := by
      rw [hstrip, hser]
      simp [findChar]
    have h2 : rfindChar '}' (pyStrip (serialize (Json.obj kvs))) =
        some ((serializeFields kvs).length + 1) := by
      rw [hstrip, hser]
      unfold rfindChar
      rw [show ('{' :: (serializeFields kvs ++ ['}'])).reverse =
        '}' :: ((serializeFields kvs).reverse ++ ['{']) from by simp,
        show findChar '}' ('}' :: ((serializeFields kvs).reverse ++ ['{'])) =
          some 0 from by simp [findChar]]
      simp only [Option.map_some']
      congr 1
      simp
    rw [scanContent_str_some _ 0 _ h1 h2]
    have hslice : pySlice (pyStrip (serialize (Json.obj kvs))) 0
        ((serializeFields kvs).length + 1 + 1) = serialize (Json.obj kvs) := by
      rw [hstrip]
      unfold pySlice
      rw [List.drop_zero, Nat.sub_zero]
      have hlen : (serialize (Json.obj kvs)).length =
          (serializeFields kvs).length + 1 + 1 := by
        rw [hser]
        simp
      rw [← hlen, List.take_length]
    rw [hslice, jparse_serialize]
  · intro s
    rw [extract_flat]
    cases h1 : findChar '{' (pyStrip s) with
    | none =>
        rw [scanContent_str_none s (Or.inl h1)]
        exact iff_of_true ⟨_, rfl⟩ (Or.inl rfl)
    | some st =>
        cases h2 : rfindChar '}' (pyStrip s) with
        | none =>
            rw [scanContent_str_none s (Or.inr h2)]
            exact iff_of_true ⟨_, rfl⟩ (Or.inr (Or.inl rfl))
        | some en =>
            rw [scanContent_str_some s st en h1 h2]
            have hbs : braceSlice (pyStrip s) = pySlice (pyStrip s) st (en + 1) := by
              unfold braceSlice
              rw [h1, h2]
            cases h3 : jparse (pySlice (pyStrip s) st (en + 1)) with
            | none =>
                refine iff_of_true ⟨_, rfl⟩ (Or.inr (Or.inr ?_))
                rw [hbs]
                exact h3
            | some j =>
                refine iff_of_false ?_ ?_
                · rintro ⟨m, hm⟩
                  exact Except.noConfusion hm
                · rintro (h | h | h)
                  · cases h
                  · cases h
                  · rw [hbs, h3] at h
                    cases h
  · intro r kvs h
    unfold extractTwist
    rw [h]
    rfl

/-- Witness for C6: the concrete flat response whose content is already
the structured object `{}` is returned directly. -/
theorem extract_contract_witness :
    extractTwist (Json.obj [(contentKey, Json.obj [])]) = .ok (Json.obj []) :=
  extract_contract.2.2 (Json.obj [(contentKey, Json.obj [])]) [] (by rfl)

end LlmMotionBridge
